import Mathlib

/-!
Shallow embedding of the write validator / schema reconciler in
`src/influxdb3_write/src/write_buffer/validator.rs`.

Pure Rust functions become Lean functions; the copy-on-write shadow schema
and the process-wide atomic id counters become explicit state threaded
through each call.  External collaborators that are not part of the
repository's sources (the line-protocol tokenizer, the catalog's
`insert_table` / `add_columns` / `apply_catalog_batch`, `guess_precision`)
are modelled from the specification's words; each such definition carries a
doc comment saying so.
-/

namespace InfluxValidator

/-- The closed set of field types `{Integer, UInteger, Float, String, Boolean}`. -/
inductive InfluxFieldType
  | integer
  | uinteger
  | float
  | string
  | boolean
  deriving DecidableEq, Repr

/-- Semantic column types `{Tag, Field(F), Timestamp}` (crate `schema`). -/
inductive InfluxColumnType
  | tag
  | field (t : InfluxFieldType)
  | timestamp
  deriving DecidableEq, Repr

/-- Modelled from the spec: the external `Display` rendering of a field type
(crate `schema`), used only inside error message text. -/
def InfluxFieldType.display : InfluxFieldType → String
  | .integer => "integer"
  | .uinteger => "uinteger"
  | .float => "float"
  | .string => "string"
  | .boolean => "boolean"

/-- Modelled from the spec: the external `Display` rendering of a column type
(crate `schema`), used only inside error message text. -/
def InfluxColumnType.display : InfluxColumnType → String
  | .tag => "iox::column_type::tag"
  | .field t => "iox::column_type::field::" ++ t.display
  | .timestamp => "iox::column_type::timestamp"

/-- A field value as produced by the external line-protocol tokenizer
(`influxdb_line_protocol::FieldValue`).  Floating-point payloads are carried
opaquely as their source text (no float arithmetic happens in the validator). -/
inductive FieldValue
  | i64 (v : Int)
  | u64 (v : Nat)
  | f64 (lit : String)
  | str (v : String)
  | bool (v : Bool)
  deriving DecidableEq, Repr

/-- `influx_column_type_from_field_value`: value-syntactic type inference. -/
def influx_column_type_from_field_value : FieldValue → InfluxColumnType
  | .i64 _ => .field .integer
  | .u64 _ => .field .uinteger
  | .f64 _ => .field .float
  | .str _ => .field .string
  | .bool _ => .field .boolean

/-- `influxdb3_wal::FieldData`: a typed value stored in a row. -/
inductive FieldData
  | timestamp (v : Int)
  | tag (v : String)
  | integer (v : Int)
  | uinteger (v : Nat)
  | float (lit : String)
  | string (v : String)
  | boolean (v : Bool)
  deriving DecidableEq, Repr

/-- The `From<FieldValue> for FieldData` conversion used by `Field::new`. -/
def FieldData.ofValue : FieldValue → FieldData
  | .i64 v => .integer v
  | .u64 v => .uinteger v
  | .f64 lit => .float lit
  | .str v => .string v
  | .bool v => .boolean v

/-- `influxdb3_wal::Field`: a `(column id, typed value)` pair of a row. -/
structure Field where
  id : Nat
  data : FieldData
  deriving DecidableEq, Repr

/-- `influxdb3_wal::Row`. -/
structure Row where
  time : Int
  fields : List Field
  deriving DecidableEq, Repr

/-- The series part of a parsed line (measurement plus optional tag set). -/
structure Series where
  measurement : String
  tag_set : Option (List (String × String))
  deriving DecidableEq, Repr

/-- A line as produced by the external tokenizer
(`influxdb_line_protocol::ParsedLine`). -/
structure ParsedLine where
  series : Series
  field_set : List (String × FieldValue)
  timestamp : Option Int
  deriving DecidableEq, Repr

/-- Modelled from the spec: the external `Display` of a `FieldValue`
(used by `ParsedLine`'s `Display`, which re-serializes the parsed form). -/
def FieldValue.display : FieldValue → String
  | .i64 v => toString v ++ "i"
  | .u64 v => toString v ++ "u"
  | .f64 lit => lit
  | .str v => "\"" ++ v ++ "\""
  | .bool v => if v then "true" else "false"

/-- Modelled from the spec: the external `Display` of a `ParsedLine`
(`line.to_string()` in the source): the canonical re-serialization
`measurement[,tag=val…] field=val[,…] [ts]` of the parsed data (escaping of
special characters is not modelled). -/
def ParsedLine.display (l : ParsedLine) : String :=
  l.series.measurement
    ++ String.join ((l.series.tag_set.getD []).map (fun p => "," ++ p.1 ++ "=" ++ p.2))
    ++ " "
    ++ String.intercalate "," (l.field_set.map (fun p => p.1 ++ "=" ++ p.2.display))
    ++ (match l.timestamp with
        | some ts => " " ++ toString ts
        | none => "")

/-- `crate::Precision`. -/
inductive Precision
  | auto
  | second
  | millisecond
  | microsecond
  | nanosecond
  deriving DecidableEq, Repr

/-- Modelled from the spec: the external `crate::guess_precision` heuristic,
which infers a precision from the magnitude of the raw timestamp and never
returns `Auto`. -/
def guess_precision (ts : Int) : Precision :=
  let val := ts.natAbs / 1000000000
  if val < 5 then .second
  else if val < 5000 then .millisecond
  else if val < 5000000 then .microsecond
  else .nanosecond

/-- Wrap an unbounded integer to the two's-complement range of `i64`,
the machine arithmetic of the Rust source. -/
def i64wrap (x : Int) : Int := (x + 2 ^ 63) % 2 ^ 64 - 2 ^ 63

/-- `apply_precision_to_timestamp` (validator.rs lines 475-492).  The `Auto`
arm of the source panics with `unreachable!()` when `guess_precision`
returns `Auto`; since the modelled `guess_precision` never does, that arm is
dead and is given the multiplier 1 here. -/
def apply_precision_to_timestamp (precision : Precision) (ts : Int) : Int :=
  let multiplier : Int :=
    match precision with
    | .auto =>
      match guess_precision ts with
      | .second => 1000000000
      | .millisecond => 1000000
      | .microsecond => 1000
      | .nanosecond => 1
      | .auto => 1
    | .second => 1000000000
    | .millisecond => 1000000
    | .microsecond => 1000
    | .nanosecond => 1
  i64wrap (ts * multiplier)

/-- A column of a table definition (`influxdb3_catalog`). -/
structure ColumnDefinition where
  id : Nat
  name : String
  data_type : InfluxColumnType
  deriving DecidableEq, Repr

/-- `influxdb3_catalog::catalog::TableDefinition`: id, name, ordered column
list and series key. -/
structure TableDefinition where
  table_id : Nat
  table_name : String
  columns : List ColumnDefinition
  key : List Nat
  deriving DecidableEq, Repr

/-- `TableDefinition::column_name_to_id`. -/
def TableDefinition.column_name_to_id (t : TableDefinition) (name : String) : Option Nat :=
  (t.columns.find? (fun c => c.name == name)).map (fun c => c.id)

/-- `TableDefinition::column_id_and_definition`. -/
def TableDefinition.column_id_and_definition (t : TableDefinition) (name : String) :
    Option (Nat × ColumnDefinition) :=
  (t.columns.find? (fun c => c.name == name)).map (fun c => (c.id, c))

/-- Modelled from the spec: `TableDefinition::add_columns` (crate
`influxdb3_catalog`, not under `src/`), which "re-validates uniqueness and
type legality": it refuses a new column whose name collides with an existing
column or with another new column, and otherwise appends the new columns. -/
def TableDefinition.add_columns (t : TableDefinition)
    (cols : List (Nat × String × InfluxColumnType)) : Except String TableDefinition :=
  if cols.any (fun c => t.columns.any (fun c0 => c0.name == c.2.1)) then
    .error ("column name already exists in table")
  else if (cols.map (fun c => c.2.1)).Nodup then
    .ok { t with columns := t.columns ++ cols.map (fun c => ⟨c.1, c.2.1, c.2.2⟩) }
  else
    .error ("duplicate column name in addition")

/-- `influxdb3_catalog::catalog::DatabaseSchema`: id, name and the
insertion-ordered `TableId → TableDefinition` map. -/
structure DatabaseSchema where
  id : Nat
  name : String
  tables : List (Nat × TableDefinition)
  deriving DecidableEq, Repr

/-- `DatabaseSchema::table_definition`: look a table up by name. -/
def DatabaseSchema.table_definition (s : DatabaseSchema) (name : String) :
    Option TableDefinition :=
  (s.tables.find? (fun p => p.2.table_name == name)).map (fun p => p.2)

/-- Modelled from the spec: `DatabaseSchema::insert_table` (crate
`influxdb3_catalog`, not under `src/`): install a table under its id in the
shadow schema, returning the table previously stored under that id; a name
collision with a table stored under a different id violates the
"both indices agree" invariant and is refused. -/
def DatabaseSchema.insert_table (s : DatabaseSchema) (tid : Nat) (t : TableDefinition) :
    Except String (Option TableDefinition × DatabaseSchema) :=
  if s.tables.any (fun p => p.2.table_name == t.table_name && p.1 != tid) then
    .error ("table name already in use")
  else
    match s.tables.find? (fun p => p.1 == tid) with
    | some p =>
      .ok (some p.2,
        { s with tables := s.tables.map (fun q => if q.1 == tid then (tid, t) else q) })
    | none => .ok (none, { s with tables := s.tables ++ [(tid, t)] })

/-- `influxdb3_wal::FieldDefinition`. -/
structure FieldDefinition where
  id : Nat
  name : String
  data_type : InfluxColumnType
  deriving DecidableEq, Repr

/-- `FieldDefinition::new`. -/
def FieldDefinition.new (id : Nat) (name : String) (t : InfluxColumnType) : FieldDefinition :=
  ⟨id, name, t⟩

/-- `influxdb3_wal::FieldAdditions`. -/
structure FieldAdditions where
  database_name : String
  database_id : Nat
  table_id : Nat
  table_name : String
  field_definitions : List FieldDefinition
  deriving DecidableEq, Repr

/-- `influxdb3_wal::WalTableDefinition` (payload of `CatalogOp::CreateTable`). -/
structure WalTableDefinition where
  table_id : Nat
  database_id : Nat
  database_name : String
  table_name : String
  field_definitions : List FieldDefinition
  key : List Nat
  deriving DecidableEq, Repr

/-- `influxdb3_wal::CatalogOp` (the two variants the validator emits). -/
inductive CatalogOp
  | addFields (fa : FieldAdditions)
  | createTable (wt : WalTableDefinition)
  deriving DecidableEq, Repr

/-- `influxdb3_wal::CatalogBatch`. -/
structure CatalogBatch where
  database_id : Nat
  time_ns : Int
  database_name : String
  ops : List CatalogOp
  deriving DecidableEq, Repr

/-- `influxdb3_wal::OrderedCatalogBatch`: a catalog batch with the sequence
number assigned on publication. -/
structure OrderedCatalogBatch where
  batch : CatalogBatch
  sequence_number : Nat
  deriving DecidableEq, Repr

/-- Modelled from the spec: the external, shared `Catalog`, observed through
its version counter and the list of batches applied to it. -/
structure Catalog where
  version : Nat
  applied : List CatalogBatch
  deriving DecidableEq, Repr

/-- Modelled from the spec: `Catalog::apply_catalog_batch` — atomic publish
of an ordered catalog batch; the catalog advances one version and the batch
receives a monotonically assigned sequence number. -/
def Catalog.apply_catalog_batch (c : Catalog) (b : CatalogBatch) :
    OrderedCatalogBatch × Catalog :=
  (⟨b, c.version⟩, ⟨c.version + 1, c.applied ++ [b]⟩)

/-- `crate::WriteLineError`. -/
structure WriteLineError where
  original_line : String
  line_number : Nat
  error_message : String
  deriving DecidableEq, Repr

/-- `QualifiedLine` (validator.rs lines 467-473). -/
structure QualifiedLine where
  table_id : Nat
  row : Row
  index_count : Nat
  field_count : Nat
  deriving DecidableEq, Repr

/-- The process-wide atomic id counters behind `ColumnId::new()` and
`TableId::new()`: ids are opaque monotonic integers, minted eagerly. -/
structure MintState where
  nextCol : Nat
  nextTable : Nat
  deriving DecidableEq, Repr

/-- The tag loop of the existing-table path (validator.rs lines 181-192):
an existing column name resolves to its id; an unknown tag key mints a new
`ColumnId` and stages a new `Tag` column.  Returns the appended row fields,
the staged columns (in encounter order), the counter state, and the number
of tags seen (`index_count`). -/
def qualifyTags (td : TableDefinition) (st : MintState) :
    List (String × String) →
    List Field × List (Nat × String × InfluxColumnType) × MintState × Nat
  | [] => ([], [], st, 0)
  | (tagKey, tagVal) :: rest =>
    match td.column_name_to_id tagKey with
    | some colId =>
      let r := qualifyTags td st rest
      (Field.mk colId (.tag tagVal) :: r.1, r.2.1, r.2.2.1, r.2.2.2 + 1)
    | none =>
      let colId := st.nextCol
      let r := qualifyTags td ⟨st.nextCol + 1, st.nextTable⟩ rest
      (Field.mk colId (.tag tagVal) :: r.1, (colId, tagKey, .tag) :: r.2.1,
        r.2.2.1, r.2.2.2 + 1)

/-- The field loop of the existing-table path (validator.rs lines 193-223):
an existing column's stored type must match the incoming value's inferred
type, otherwise the loop fails carrying `(field name, expected, got)`; an
unknown field name mints a new `ColumnId` and stages a column of the
inferred type.  The counter state at the point of failure is returned even
on error, mirroring the eagerly minted (and then abandoned) ids. -/
def qualifyFieldsExisting (td : TableDefinition) (st : MintState) :
    List (String × FieldValue) →
    Except (String × InfluxColumnType × InfluxColumnType)
      (List Field × List (Nat × String × InfluxColumnType) × Nat) × MintState
  | [] => (.ok ([], [], 0), st)
  | (fieldName, fieldVal) :: rest =>
    match td.column_id_and_definition fieldName with
    | some (colId, colDef) =>
      if influx_column_type_from_field_value fieldVal ≠ colDef.data_type then
        (.error (fieldName, colDef.data_type, influx_column_type_from_field_value fieldVal), st)
      else
        match qualifyFieldsExisting td st rest with
        | (.ok (fs, cols, n), st1) =>
          (.ok (Field.mk colId (FieldData.ofValue fieldVal) :: fs, cols, n + 1), st1)
        | (.error e, st1) => (.error e, st1)
    | none =>
      let colId := st.nextCol
      match qualifyFieldsExisting td ⟨st.nextCol + 1, st.nextTable⟩ rest with
      | (.ok (fs, cols, n), st1) =>
        (.ok (Field.mk colId (FieldData.ofValue fieldVal) :: fs,
          (colId, fieldName, influx_column_type_from_field_value fieldVal) :: cols, n + 1), st1)
      | (.error e, st1) => (.error e, st1)

/-- The tag loop of the new-table path (validator.rs lines 303-312): every
tag mints a fresh `ColumnId`, is recorded as a `Tag` column and joins the
series key in order. -/
def qualifyTagsNew (st : MintState) :
    List (String × String) →
    List Field × List (Nat × String × InfluxColumnType) × List Nat × MintState × Nat
  | [] => ([], [], [], st, 0)
  | (tagKey, tagVal) :: rest =>
    let colId := st.nextCol
    let r := qualifyTagsNew ⟨st.nextCol + 1, st.nextTable⟩ rest
    (Field.mk colId (.tag tagVal) :: r.1, (colId, tagKey, .tag) :: r.2.1,
      colId :: r.2.2.1, r.2.2.2.1, r.2.2.2.2 + 1)

/-- The field loop of the new-table path (validator.rs lines 313-322). -/
def qualifyFieldsNew (st : MintState) :
    List (String × FieldValue) →
    List Field × List (Nat × String × InfluxColumnType) × MintState × Nat
  | [] => ([], [], st, 0)
  | (fieldName, fieldVal) :: rest =>
    let colId := st.nextCol
    let r := qualifyFieldsNew ⟨st.nextCol + 1, st.nextTable⟩ rest
    (Field.mk colId (FieldData.ofValue fieldVal) :: r.1,
      (colId, fieldName, influx_column_type_from_field_value fieldVal) :: r.2.1,
      r.2.2.1, r.2.2.2 + 1)

/-- The type-mismatch message of validator.rs lines 204-209.  Note the
source interpolates the raw `line_number` parameter (the 0-based loop
index) into the text while the error struct's `line_number` field gets
`line_number + 1`. -/
def typeMismatchMessage (fieldName : String) (lineNumber : Nat)
    (expected got : InfluxColumnType) : String :=
  "invalid field value in line protocol for field '" ++ fieldName ++ "' on line "
    ++ toString lineNumber ++ ": expected type " ++ expected.display
    ++ ", but got " ++ got.display

/-- `TIME_COLUMN_NAME`. -/
def timeColumnName : String := "time"

/-- `validate_and_qualify_line` (validator.rs lines 166-383).  The shadow
schema and the id counters are threaded explicitly; both are returned also
on error, exactly as the Rust leaves the `Cow` shadow and the process-wide
counters behind on each early `return Err`. -/
def validate_and_qualify_line (db_schema : DatabaseSchema) (st : MintState)
    (line_number : Nat) (line : ParsedLine) (ingest_time : Int) (precision : Precision) :
    Except WriteLineError (QualifiedLine × Option CatalogOp) × DatabaseSchema × MintState :=
  let table_name := line.series.measurement
  match db_schema.table_definition table_name with
  | some table_def =>
    let tq := qualifyTags table_def st (line.series.tag_set.getD [])
    let tagFields := tq.1
    let tagCols := tq.2.1
    let index_count := tq.2.2.2
    let fq := qualifyFieldsExisting table_def tq.2.2.1 line.field_set
    match fq.1 with
    | .error e =>
      (.error ⟨line.display, line_number + 1,
        typeMismatchMessage e.1 line_number e.2.1 e.2.2⟩, db_schema, fq.2)
    | .ok (valFields, valCols, field_count) =>
      let tc : Nat × List (Nat × String × InfluxColumnType) × MintState :=
        match table_def.column_name_to_id timeColumnName with
        | some cid => (cid, [], fq.2)
        | none =>
          (fq.2.nextCol, [(fq.2.nextCol, timeColumnName, InfluxColumnType.timestamp)],
            ⟨fq.2.nextCol + 1, fq.2.nextTable⟩)
      let time_col_id := tc.1
      let st3 := tc.2.2
      let timestamp_ns :=
        (line.timestamp.map (apply_precision_to_timestamp precision)).getD ingest_time
      let fields := tagFields ++ valFields ++ [Field.mk time_col_id (.timestamp timestamp_ns)]
      let columns := tagCols ++ valCols ++ tc.2.1
      if columns.isEmpty then
        (.ok (⟨table_def.table_id, ⟨timestamp_ns, fields⟩, index_count, field_count⟩, none),
          db_schema, st3)
      else
        let field_definitions := columns.map (fun c => FieldDefinition.new c.1 c.2.1 c.2.2)
        match table_def.add_columns columns with
        | .error e => (.error ⟨line.display, line_number + 1, e⟩, db_schema, st3)
        | .ok new_table_def =>
          match db_schema.insert_table table_def.table_id new_table_def with
          | .error e => (.error ⟨line.display, line_number + 1, e⟩, db_schema, st3)
          | .ok (_, schema1) =>
            let op := CatalogOp.addFields
              ⟨db_schema.name, db_schema.id, table_def.table_id, table_def.table_name,
                field_definitions⟩
            (.ok (⟨table_def.table_id, ⟨timestamp_ns, fields⟩, index_count, field_count⟩,
              some op), schema1, st3)
  | none =>
    let table_id := st.nextTable
    let tq := qualifyTagsNew ⟨st.nextCol, st.nextTable + 1⟩ (line.series.tag_set.getD [])
    let tagFields := tq.1
    let tagCols := tq.2.1
    let key := tq.2.2.1
    let index_count := tq.2.2.2.2
    let fq := qualifyFieldsNew tq.2.2.2.1 line.field_set
    let valFields := fq.1
    let valCols := fq.2.1
    let st2 := fq.2.2.1
    let field_count := fq.2.2.2
    let time_col_id := st2.nextCol
    let st3 : MintState := ⟨st2.nextCol + 1, st2.nextTable⟩
    let columns := tagCols ++ valCols ++ [(time_col_id, timeColumnName, InfluxColumnType.timestamp)]
    let timestamp_ns :=
      (line.timestamp.map (apply_precision_to_timestamp precision)).getD ingest_time
    let fields := tagFields ++ valFields ++ [Field.mk time_col_id (.timestamp timestamp_ns)]
    let field_definitions := columns.map (fun c => FieldDefinition.new c.1 c.2.1 c.2.2)
    let op := CatalogOp.createTable
      ⟨table_id, db_schema.id, db_schema.name, table_name, field_definitions, key⟩
    let table := TableDefinition.mk table_id table_name
      (columns.map (fun c => ⟨c.1, c.2.1, c.2.2⟩)) key
    match db_schema.insert_table table_id table with
    | .error e => (.error ⟨line.display, line_number + 1, e⟩, db_schema, st3)
    | .ok (some _, schema1) =>
      (.error ⟨line.display, line_number + 1, "unexpected overwrite of existing table"⟩,
        schema1, st3)
    | .ok (none, schema1) =>
      (.ok (⟨table_id, ⟨timestamp_ns, fields⟩, index_count, field_count⟩, some op), schema1, st3)

/-- The input of `parse_lines_and_update_schema` at the tokenizer seam: each
raw input line (its original text) paired with the external
`parse_lines` result for it — a `ParsedLine` or a tokenization error
message.  Tokenization itself is out of scope (external parser). -/
abbrev LpInput := List (String × Except String ParsedLine)

/-- The accumulators of the line loop in `parse_lines_and_update_schema`
(validator.rs lines 93-130): the shadow schema, the id counters, and the
`errors` / `lines` / `bytes` / `catalog_updates` vectors. -/
structure LoopAcc where
  schema : DatabaseSchema
  mint : MintState
  errors : List WriteLineError
  lines : List QualifiedLine
  bytes : Nat
  ops : List CatalogOp
  deriving DecidableEq, Repr

/-- The line loop of `parse_lines_and_update_schema` (validator.rs lines
100-130): tokenization errors become `WriteLineError`s with the raw line
text; qualification runs `validate_and_qualify_line` against the shadow
schema; a failing line aborts the whole batch when `ap = false` and is
recorded and skipped when `ap = true`; a successful line accrues its raw
byte length, its optional catalog op and its qualified form, in order. -/
def processLines (ap : Bool) (it : Int) (prec : Precision) :
    LoopAcc → Nat → LpInput → Except WriteLineError LoopAcc
  | acc, _, [] => .ok acc
  | acc, idx, (raw, parsed) :: rest =>
    match parsed with
    | .error msg =>
      let e : WriteLineError := ⟨raw, idx + 1, msg⟩
      if ap then
        processLines ap it prec { acc with errors := acc.errors ++ [e] } (idx + 1) rest
      else .error e
    | .ok l =>
      match validate_and_qualify_line acc.schema acc.mint idx l it prec with
      | (.error e, schema1, mint1) =>
        if ap then
          processLines ap it prec
            { acc with schema := schema1, mint := mint1, errors := acc.errors ++ [e] }
            (idx + 1) rest
        else .error e
      | (.ok (ql, op), schema1, mint1) =>
        processLines ap it prec
          { acc with
            schema := schema1
            mint := mint1
            bytes := acc.bytes + raw.utf8ByteSize
            ops := acc.ops ++ op.toList
            lines := acc.lines ++ [ql] }
          (idx + 1) rest

/-- Type state `WithCatalog` (validator.rs lines 24-28). -/
structure WithCatalog where
  catalog : Catalog
  db_schema : DatabaseSchema
  time_now_ns : Int
  deriving DecidableEq, Repr

/-- Type state `LinesParsed` (validator.rs lines 33-39). -/
structure LinesParsed where
  catalog : WithCatalog
  lines : List QualifiedLine
  bytes : Nat
  catalog_batch : Option OrderedCatalogBatch
  errors : List WriteLineError
  deriving DecidableEq, Repr

/-- `write_buffer::Error` as the validator produces it: a `ParseError`
wrapping the offending line's `WriteLineError`. -/
inductive WriteBufferError
  | parseError (e : WriteLineError)
  deriving DecidableEq, Repr

/-- `parse_lines_and_update_schema` (validator.rs lines 86-156).  Besides
the `Result`, the catalog state after the call and the id-counter state are
returned (in Rust these live behind the shared `Arc<Catalog>` and the
process-wide atomics).  On the all-or-nothing abort path the catalog is
returned untouched — `apply_catalog_batch` only runs after the loop; counter
advances by then-abandoned mints are not tracked on that path, since
abandoned ids are inert and never observable. -/
def parse_lines_and_update_schema (s : WithCatalog) (mint : MintState) (input : LpInput)
    (ap : Bool) (ingest_time : Int) (precision : Precision) :
    Except WriteBufferError LinesParsed × Catalog × MintState :=
  match processLines ap ingest_time precision ⟨s.db_schema, mint, [], [], 0, []⟩ 0 input with
  | .error e => (.error (.parseError e), s.catalog, mint)
  | .ok acc =>
    if acc.ops.isEmpty then
      (.ok ⟨s, acc.lines, acc.bytes, none, acc.errors⟩, s.catalog, acc.mint)
    else
      let batch : CatalogBatch := ⟨s.db_schema.id, s.time_now_ns, s.db_schema.name, acc.ops⟩
      let r := s.catalog.apply_catalog_batch batch
      (.ok ⟨⟨r.2, s.db_schema, s.time_now_ns⟩, acc.lines, acc.bytes, some r.1, acc.errors⟩,
        r.2, acc.mint)

/-- `influxdb3_wal::TableChunks`: insertion-ordered map from chunk time to
the rows of that chunk, appended in arrival order. -/
structure TableChunks where
  chunks : List (Int × List Row)
  deriving DecidableEq, Repr

/-- `TableChunks::push_row`. -/
def TableChunks.push_row (tc : TableChunks) (chunk_time : Int) (row : Row) : TableChunks :=
  if tc.chunks.any (fun p => p.1 == chunk_time) then
    ⟨tc.chunks.map (fun p => if p.1 == chunk_time then (p.1, p.2 ++ [row]) else p)⟩
  else ⟨tc.chunks ++ [(chunk_time, [row])]⟩

/-- Modelled from the spec: `Gen1Duration::chunk_time_for_timestamp` (crate
`influxdb3_wal`, not under `src/`): the start of the fixed-width window
containing the timestamp, `floor(time / window) * window`. -/
def chunk_time_for_timestamp (window : Int) (t : Int) : Int := t.fdiv window * window

/-- `influxdb3_wal::WriteBatch` as the validator builds it. -/
structure WriteBatch where
  database_id : Nat
  database_name : String
  table_chunks : List (Nat × TableChunks)
  deriving DecidableEq, Repr

/-- `convert_qualified_line` (validator.rs lines 456-465). -/
def convert_qualified_line (window : Int) (l : QualifiedLine)
    (m : List (Nat × TableChunks)) : List (Nat × TableChunks) :=
  let ct := chunk_time_for_timestamp window l.row.time
  if m.any (fun p => p.1 == l.table_id) then
    m.map (fun p => if p.1 == l.table_id then (p.1, p.2.push_row ct l.row) else p)
  else m ++ [(l.table_id, TableChunks.push_row ⟨[]⟩ ct l.row)]

/-- `ValidatedLines` (validator.rs lines 388-403). -/
structure ValidatedLines where
  line_count : Nat
  valid_bytes_count : Nat
  field_count : Nat
  index_count : Nat
  errors : List WriteLineError
  valid_data : WriteBatch
  catalog_updates : Option OrderedCatalogBatch
  deriving DecidableEq, Repr

/-- `convert_lines_to_buffer` (validator.rs lines 425-453): `line_count`
is the length of the qualified-lines vector; field and index counts are
summed over the qualified lines while they are bucketed per table and
chunk window. -/
def convert_lines_to_buffer (lp : LinesParsed) (window : Int) : ValidatedLines :=
  { line_count := lp.lines.length
    valid_bytes_count := lp.bytes
    field_count := (lp.lines.map (fun l => l.field_count)).sum
    index_count := (lp.lines.map (fun l => l.index_count)).sum
    errors := lp.errors
    valid_data :=
      ⟨lp.catalog.db_schema.id, lp.catalog.db_schema.name,
        lp.lines.foldl (fun m l => convert_qualified_line window l m) []⟩
    catalog_updates := lp.catalog_batch }

/-! ## Spec-side auxiliary definitions -/

/-- The precision multiplier table exactly as the specification states it
(Second: 10⁹, Millisecond: 10⁶, Microsecond: 10³, Nanosecond: 1); `Auto`
has no fixed multiplier and is given 0. -/
def multiplierSpec : Precision → Int
  | .auto => 0
  | .second => 1000000000
  | .millisecond => 1000000
  | .microsecond => 1000
  | .nanosecond => 1

/-- Whether a stored row value is a timestamp value. -/
def FieldData.isTimestamp : FieldData → Bool
  | .timestamp _ => true
  | _ => false

/-! ## Helper lemmas -/

lemma i64wrap_of_fits {x : Int} (hlo : -(2 ^ 63) ≤ x) (hhi : x < 2 ^ 63) :
    i64wrap x = x := by
  unfold i64wrap
  have h3 : (0 : Int) ≤ x + 2 ^ 63 := by linarith
  have h4 : x + 2 ^ 63 < 2 ^ 64 := by
    have he : (2 : Int) ^ 64 = 2 ^ 63 + 2 ^ 63 := by norm_num
    linarith
  rw [Int.emod_eq_of_lt h3 h4]
  ring

lemma apply_precision_nonauto {p : Precision} (ts : Int) (hp : p ≠ Precision.auto) :
    apply_precision_to_timestamp p ts = i64wrap (ts * multiplierSpec p) := by
  cases p
  · exact absurd rfl hp
  all_goals rfl

lemma validate_ok_row_time {schema : DatabaseSchema} {st : MintState} {k : Nat}
    {l : ParsedLine} {it : Int} {p : Precision} {q : QualifiedLine}
    {op : Option CatalogOp} {s1 : DatabaseSchema} {st1 : MintState}
    (h : validate_and_qualify_line schema st k l it p = (.ok (q, op), s1, st1)) :
    q.row.time = (l.timestamp.map (apply_precision_to_timestamp p)).getD it := by
  simp only [validate_and_qualify_line] at h
  repeat' split at h
  any_goals simp at h
  all_goals obtain ⟨⟨hq, hop⟩, hs, hst⟩ := h
  all_goals subst hq
  all_goals rfl

lemma ofValue_not_timestamp (v : FieldValue) : (FieldData.ofValue v).isTimestamp = false := by
  cases v <;> rfl

lemma qualifyTags_no_ts (td : TableDefinition) (st : MintState)
    (ts : List (String × String)) :
    ∀ f ∈ (qualifyTags td st ts).1, f.data.isTimestamp = false := by
  induction ts generalizing st with
  | nil => intro f hf; simp [qualifyTags] at hf
  | cons hd tl ih =>
    intro f hf
    obtain ⟨tk, tv⟩ := hd
    cases hcase : td.column_name_to_id tk <;> simp only [qualifyTags, hcase] at hf
    all_goals rcases List.mem_cons.mp hf with hf1 | hf1
    all_goals first
      | (subst hf1; rfl)
      | exact ih _ f hf1

lemma qualifyFieldsExisting_no_ts (td : TableDefinition)
    (fs : List (String × FieldValue)) :
    ∀ st fl cols n st1,
      qualifyFieldsExisting td st fs = (.ok (fl, cols, n), st1) →
      ∀ f ∈ fl, f.data.isTimestamp = false := by
  induction fs with
  | nil =>
    intro st fl cols n st1 he f hf
    simp only [qualifyFieldsExisting, Prod.mk.injEq, Except.ok.injEq] at he
    obtain ⟨⟨h1, h2, h3⟩, h4⟩ := he
    subst h1; simp at hf
  | cons hd tl ih =>
    intro st fl cols n st1 he f hf
    obtain ⟨fn, fv⟩ := hd
    simp only [qualifyFieldsExisting] at he
    split at he
    next cpair hcd =>
      split at he
      next hne => simp at he
      next hne =>
        split at he
        next fl2 cols2 n2 st2 hrec =>
          simp only [Prod.mk.injEq, Except.ok.injEq] at he
          obtain ⟨⟨h1, h2, h3⟩, h4⟩ := he
          subst h1
          rcases List.mem_cons.mp hf with hf1 | hf1
          · subst hf1; exact ofValue_not_timestamp fv
          · exact ih _ _ _ _ _ hrec f hf1
        next => simp at he
    next hcd =>
      split at he
      next fl2 cols2 n2 st2 hrec =>
        simp only [Prod.mk.injEq, Except.ok.injEq] at he
        obtain ⟨⟨h1, h2, h3⟩, h4⟩ := he
        subst h1
        rcases List.mem_cons.mp hf with hf1 | hf1
        · subst hf1; exact ofValue_not_timestamp fv
        · exact ih _ _ _ _ _ hrec f hf1
      next => simp at he

lemma qualifyFieldsExisting_no_ts1 (td : TableDefinition) (fs : List (String × FieldValue))
    (st : MintState) (fl : List Field) (cols : List (Nat × String × InfluxColumnType)) (n : Nat)
    (h : (qualifyFieldsExisting td st fs).1 = .ok (fl, cols, n)) :
    ∀ f ∈ fl, f.data.isTimestamp = false := by
  apply qualifyFieldsExisting_no_ts td fs st fl cols n (qualifyFieldsExisting td st fs).2
  rw [← h]

lemma qualifyTagsNew_no_ts (st : MintState) (ts : List (String × String)) :
    ∀ f ∈ (qualifyTagsNew st ts).1, f.data.isTimestamp = false := by
  induction ts generalizing st with
  | nil => intro f hf; simp [qualifyTagsNew] at hf
  | cons hd tl ih =>
    intro f hf
    obtain ⟨tk, tv⟩ := hd
    simp only [qualifyTagsNew] at hf
    rcases List.mem_cons.mp hf with hf1 | hf1
    · subst hf1; rfl
    · exact ih _ f hf1

lemma qualifyFieldsNew_no_ts (st : MintState) (fs : List (String × FieldValue)) :
    ∀ f ∈ (qualifyFieldsNew st fs).1, f.data.isTimestamp = false := by
  induction fs generalizing st with
  | nil => intro f hf; simp [qualifyFieldsNew] at hf
  | cons hd tl ih =>
    intro f hf
    obtain ⟨fn, fv⟩ := hd
    simp only [qualifyFieldsNew] at hf
    rcases List.mem_cons.mp hf with hf1 | hf1
    · subst hf1; exact ofValue_not_timestamp fv
    · exact ih _ f hf1

lemma validate_ok_fields_shape {schema : DatabaseSchema} {st : MintState} {k : Nat}
    {l : ParsedLine} {it : Int} {p : Precision} {q : QualifiedLine}
    {op : Option CatalogOp} {s1 : DatabaseSchema} {st1 : MintState}
    (h : validate_and_qualify_line schema st k l it p = (.ok (q, op), s1, st1)) :
    ∃ pre tid, q.row.fields = pre ++ [Field.mk tid (.timestamp q.row.time)] ∧
      ∀ f ∈ pre, f.data.isTimestamp = false := by
  simp only [validate_and_qualify_line] at h
  repeat' split at h
  any_goals simp at h
  all_goals obtain ⟨⟨hq, hop⟩, hs, hst⟩ := h
  all_goals subst hq
  all_goals refine ⟨_, _, (List.append_assoc _ _ _).symm, ?_⟩
  all_goals intro f hf
  all_goals rcases List.mem_append.mp hf with hf1 | hf1
  all_goals first
    | exact qualifyTags_no_ts _ _ _ f hf1
    | exact qualifyTagsNew_no_ts _ _ f hf1
    | exact qualifyFieldsNew_no_ts _ _ f hf1
    | exact qualifyFieldsExisting_no_ts1 _ _ _ _ _ _ (by assumption) f hf1

/-- Freshness of the table-id counter: every table id already present in
the schema is smaller than the next id to be minted.  This holds of any
schema whose ids were minted by the counter itself. -/
def FreshTables (s : DatabaseSchema) (st : MintState) : Prop :=
  ∀ p ∈ s.tables, p.1 < st.nextTable

lemma insert_table_fresh_no_overwrite {s : DatabaseSchema} {st : MintState}
    {t : TableDefinition} {pr : TableDefinition} {s1 : DatabaseSchema}
    (hf : FreshTables s st)
    (h : s.insert_table st.nextTable t = .ok (some pr, s1)) : False := by
  unfold DatabaseSchema.insert_table at h
  split at h
  · simp at h
  · split at h
    next p hfind =>
      have hmem := List.mem_of_find?_eq_some hfind
      have hbeq := List.find?_some hfind
      have hp : p.1 = st.nextTable := by simpa using hbeq
      have := hf p hmem
      omega
    next hfind => simp at h

/-! ## Claim C8 — precision round trip -/

/-- C8: for every raw timestamp `ts` and every non-Auto precision `p` such
that `ts * multiplier(p)` fits in a signed 64-bit integer,
`apply_precision_to_timestamp p ts` equals `ts` multiplied by the fixed
multiplier of `p` (Second: 10⁹, Millisecond: 10⁶, Microsecond: 10³,
Nanosecond: 1), and any line carrying raw timestamp `ts` that qualifies
under precision `p` stores exactly that product as its row's nanosecond
time. -/
theorem c8_precision_round_trip (p : Precision) (ts : Int)
    (hp : p ≠ Precision.auto)
    (hlo : -(2 ^ 63) ≤ ts * multiplierSpec p) (hhi : ts * multiplierSpec p < 2 ^ 63) :
    apply_precision_to_timestamp p ts = ts * multiplierSpec p ∧
    ∀ (schema : DatabaseSchema) (st : MintState) (k : Nat) (l : ParsedLine) (it : Int)
      (q : QualifiedLine) (op : Option CatalogOp) (s1 : DatabaseSchema) (st1 : MintState),
      l.timestamp = some ts →
      validate_and_qualify_line schema st k l it p = (.ok (q, op), s1, st1) →
      q.row.time = ts * multiplierSpec p := by
  have happ : apply_precision_to_timestamp p ts = ts * multiplierSpec p := by
    rw [apply_precision_nonauto ts hp]
    exact i64wrap_of_fits hlo hhi
  refine ⟨happ, ?_⟩
  intro schema st k l it q op s1 st1 hts h
  rw [validate_ok_row_time h, hts]
  simp [happ]

/-- Witness for C8 at precision Second and raw timestamp 1234 (the spec's S1
value: Auto would also pick Second for it). -/
theorem c8_precision_round_trip_witness :
    apply_precision_to_timestamp Precision.second 1234 = 1234 * multiplierSpec Precision.second ∧
    ∀ (schema : DatabaseSchema) (st : MintState) (k : Nat) (l : ParsedLine) (it : Int)
      (q : QualifiedLine) (op : Option CatalogOp) (s1 : DatabaseSchema) (st1 : MintState),
      l.timestamp = some 1234 →
      validate_and_qualify_line schema st k l it Precision.second = (.ok (q, op), s1, st1) →
      q.row.time = 1234 * multiplierSpec Precision.second :=
  c8_precision_round_trip Precision.second 1234 (by decide) (by decide) (by decide)

/-! ## Claim C10 — the row's timestamp entry -/

/-- C10: every `QualifiedLine` produced by `validate_and_qualify_line`
(existing-table and new-table paths alike) has exactly one `Timestamp`
entry in its row's field list, that entry is the last element, and its
nanosecond value equals the row's `time` field. -/
theorem c10_row_timestamp_unique_last (schema : DatabaseSchema) (st : MintState)
    (k : Nat) (l : ParsedLine) (it : Int) (p : Precision) (q : QualifiedLine)
    (op : Option CatalogOp) (s1 : DatabaseSchema) (st1 : MintState)
    (h : validate_and_qualify_line schema st k l it p = (.ok (q, op), s1, st1)) :
    (q.row.fields.filter (fun f => f.data.isTimestamp)).length = 1 ∧
    ∃ pre tid, q.row.fields = pre ++ [Field.mk tid (.timestamp q.row.time)] ∧
      ∀ f ∈ pre, f.data.isTimestamp = false := by
  obtain ⟨pre, tid, hshape, hpre⟩ := validate_ok_fields_shape h
  refine ⟨?_, pre, tid, hshape, hpre⟩
  rw [hshape, List.filter_append]
  have hnil : pre.filter (fun f => f.data.isTimestamp) = [] := by
    rw [List.filter_eq_nil_iff]
    intro a ha
    simp [hpre a ha]
  rw [hnil]
  simp [FieldData.isTimestamp]

/-- Witness for C10: a line against table `m` (columns `x : Tag`,
`time : Timestamp`) whose qualified row is
`{ time := 7, fields := [(1, Timestamp 7)] }`. -/
theorem c10_row_timestamp_unique_last_witness :
    (List.filter (fun f => f.data.isTimestamp)
      (Row.mk 7 [Field.mk 1 (.timestamp 7)]).fields).length = 1 ∧
    ∃ pre tid, (Row.mk 7 [Field.mk 1 (.timestamp 7)]).fields
        = pre ++ [Field.mk tid (.timestamp (Row.mk 7 [Field.mk 1 (.timestamp 7)]).time)] ∧
      ∀ f ∈ pre, f.data.isTimestamp = false :=
  c10_row_timestamp_unique_last
    ⟨0, "db", [(0, ⟨0, "m", [⟨0, "x", .tag⟩, ⟨1, "time", .timestamp⟩], [0]⟩)]⟩
    ⟨2, 1⟩ 0 ⟨⟨"m", none⟩, [], some 7⟩ 3 .nanosecond
    ⟨0, ⟨7, [⟨1, .timestamp 7⟩]⟩, 0, 0⟩ none
    ⟨0, "db", [(0, ⟨0, "m", [⟨0, "x", .tag⟩, ⟨1, "time", .timestamp⟩], [0]⟩)]⟩
    ⟨2, 1⟩ rfl

/-! ## Claim C2 — tag keys against existing non-Tag columns -/

/-- C2 counterexample: table `m` stores a column named `x` of non-Tag type
`Field(String)`; an incoming line for `m` carries tag key `x`.  The claim
says qualification of that line must fail with a type-mismatch error, but
`validate_and_qualify_line` succeeds: the tag loop performs no type check
and appends the tag value `FieldData.tag "a"` against that column's id 0. -/
theorem c2_tag_type_check_counterexample :
    validate_and_qualify_line
      ⟨0, "db", [(0, ⟨0, "m", [⟨0, "x", .field .string⟩, ⟨1, "time", .timestamp⟩], []⟩)]⟩
      ⟨2, 1⟩ 0 ⟨⟨"m", some [("x", "a")]⟩, [("y", .i64 1)], some 5⟩ 0 .nanosecond
    = (.ok (⟨0, ⟨5, [⟨0, .tag "a"⟩, ⟨2, .integer 1⟩, ⟨1, .timestamp 5⟩]⟩, 1, 1⟩,
        some (.addFields ⟨"db", 0, 0, "m", [⟨2, "y", .field .integer⟩]⟩)),
       ⟨0, "db",
         [(0, ⟨0, "m",
           [⟨0, "x", .field .string⟩, ⟨1, "time", .timestamp⟩, ⟨2, "y", .field .integer⟩],
           []⟩)]⟩,
       ⟨3, 1⟩) := by
  rfl

/-- C2 as amended: when a tag key names an existing column of the target
table, the tag loop of the existing-table path resolves it to that column's
`ColumnId` and stages nothing, with no check of the column's type (tag
qualification cannot fail); the type-mismatch check of the claim does not
exist in the code. -/
theorem c2_amended_tag_no_type_check (td : TableDefinition) (st : MintState)
    (k v : String) (rest : List (String × String)) (cid : Nat)
    (h : td.column_name_to_id k = some cid) :
    qualifyTags td st ((k, v) :: rest) =
      (Field.mk cid (.tag v) :: (qualifyTags td st rest).1,
       (qualifyTags td st rest).2.1,
       (qualifyTags td st rest).2.2.1,
       (qualifyTags td st rest).2.2.2 + 1) := by
  simp only [qualifyTags, h]

/-- Witness for the amended C2: tag key `x` names the `Field(String)` column
with id 0, and the tag loop resolves it to id 0 without failing. -/
theorem c2_amended_tag_no_type_check_witness :
    qualifyTags ⟨0, "m", [⟨0, "x", .field .string⟩, ⟨1, "time", .timestamp⟩], []⟩
      ⟨2, 1⟩ [("x", "a")] = ([Field.mk 0 (.tag "a")], [], ⟨2, 1⟩, 1) :=
  c2_amended_tag_no_type_check
    ⟨0, "m", [⟨0, "x", .field .string⟩, ⟨1, "time", .timestamp⟩], []⟩
    ⟨2, 1⟩ "x" "a" [] 0 rfl

/-! ## Claim C4 — the type-mismatch error's line numbers -/

/-- C4: the code puts the 0-based loop index into the message text while the
error's `line_number` field gets the 1-based index.  At the first input line
(index 0) of a batch whose field `val1` is stored as `String` but arrives as
an integer, the produced error has `line_number = 1` but its message reads
"on line 0" — so the message's `<n>` is not the line's 1-based number as
the claim states. -/
theorem c4_message_uses_zero_based_index :
    validate_and_qualify_line
      ⟨0, "test", [(0, ⟨0, "cpu",
        [⟨1, "tag1", .tag⟩, ⟨2, "val1", .field .string⟩, ⟨3, "time", .timestamp⟩], [1]⟩)]⟩
      ⟨4, 1⟩ 0 ⟨⟨"cpu", some [("tag1", "foo")]⟩, [("val1", .i64 5)], some 1237⟩ 0 .auto
    = (.error ⟨"cpu,tag1=foo val1=5i 1237", 1,
        "invalid field value in line protocol for field 'val1' on line 0: expected type iox::column_type::field::string, but got iox::column_type::field::integer"⟩,
       ⟨0, "test", [(0, ⟨0, "cpu",
         [⟨1, "tag1", .tag⟩, ⟨2, "val1", .field .string⟩, ⟨3, "time", .timestamp⟩], [1]⟩)]⟩,
       ⟨4, 1⟩) := by
  rfl

/-! ## Claim C5 — failed lines unwind their staging -/

lemma validate_err_schema_unchanged {schema : DatabaseSchema} {st : MintState} {k : Nat}
    {l : ParsedLine} {it : Int} {p : Precision} {e : WriteLineError}
    {s1 : DatabaseSchema} {st1 : MintState}
    (hf : FreshTables schema st)
    (h : validate_and_qualify_line schema st k l it p = (.error e, s1, st1)) :
    s1 = schema := by
  simp only [validate_and_qualify_line] at h
  repeat' split at h
  any_goals simp at h
  all_goals first
    | exact (insert_table_fresh_no_overwrite hf (by assumption)).elim
    | (obtain ⟨he, hsx, hstx⟩ := h; exact hsx.symm)

/-- C5: a line that fails qualification (type mismatch, `add_columns`
failure, or table-insertion failure) leaves the shadow database schema
unchanged, and — under partial acceptance — the loop records only the
error: the failed line contributes no `QualifiedLine` and no catalog op,
and the remaining lines are processed against the very same schema, as if
the failed line had not appeared (only the error list and the abandoned id
counter differ).  The freshness hypothesis states that the schema's table
ids were minted by the id counter, which rules out the source's
"unexpected overwrite" path. -/
theorem c5_failed_line_unwinds (schema : DatabaseSchema) (st : MintState) (k : Nat)
    (l : ParsedLine) (it : Int) (p : Precision) (e : WriteLineError)
    (s1 : DatabaseSchema) (st1 : MintState)
    (hf : FreshTables schema st)
    (h : validate_and_qualify_line schema st k l it p = (.error e, s1, st1)) :
    s1 = schema ∧
    ∀ (acc : LoopAcc) (raw : String) (rest : LpInput),
      acc.schema = schema → acc.mint = st →
      processLines true it p acc k ((raw, .ok l) :: rest)
        = processLines true it p
            { acc with mint := st1, errors := acc.errors ++ [e] } (k + 1) rest := by
  have hs : s1 = schema := validate_err_schema_unchanged hf h
  refine ⟨hs, ?_⟩
  intro acc raw rest hsc hmt
  simp only [processLines, hsc, hmt, h, hs]
  simp

/-- Witness for C5: the type-mismatch line `cpu,tag1=foo val1=5i 1237`
against a schema storing `val1 : Field(String)` fails and unwinds. -/
theorem c5_failed_line_unwinds_witness :
    (⟨0, "test", [(0, ⟨0, "cpu",
        [⟨1, "tag1", .tag⟩, ⟨2, "val1", .field .string⟩, ⟨3, "time", .timestamp⟩],
        [1]⟩)]⟩ : DatabaseSchema)
      = ⟨0, "test", [(0, ⟨0, "cpu",
          [⟨1, "tag1", .tag⟩, ⟨2, "val1", .field .string⟩, ⟨3, "time", .timestamp⟩],
          [1]⟩)]⟩ ∧
    ∀ (acc : LoopAcc) (raw : String) (rest : LpInput),
      acc.schema = ⟨0, "test", [(0, ⟨0, "cpu",
        [⟨1, "tag1", .tag⟩, ⟨2, "val1", .field .string⟩, ⟨3, "time", .timestamp⟩],
        [1]⟩)]⟩ →
      acc.mint = ⟨4, 1⟩ →
      processLines true 0 .auto acc 0
        ((raw, .ok ⟨⟨"cpu", some [("tag1", "foo")]⟩, [("val1", .i64 5)], some 1237⟩) :: rest)
        = processLines true 0 .auto
            { acc with mint := ⟨4, 1⟩, errors := acc.errors
              ++ [⟨"cpu,tag1=foo val1=5i 1237", 1,
                "invalid field value in line protocol for field 'val1' on line 0: expected type iox::column_type::field::string, but got iox::column_type::field::integer"⟩] }
            1 rest :=
  c5_failed_line_unwinds
    ⟨0, "test", [(0, ⟨0, "cpu",
      [⟨1, "tag1", .tag⟩, ⟨2, "val1", .field .string⟩, ⟨3, "time", .timestamp⟩], [1]⟩)]⟩
    ⟨4, 1⟩ 0 ⟨⟨"cpu", some [("tag1", "foo")]⟩, [("val1", .i64 5)], some 1237⟩ 0 .auto
    ⟨"cpu,tag1=foo val1=5i 1237", 1,
      "invalid field value in line protocol for field 'val1' on line 0: expected type iox::column_type::field::string, but got iox::column_type::field::integer"⟩
    ⟨0, "test", [(0, ⟨0, "cpu",
      [⟨1, "tag1", .tag⟩, ⟨2, "val1", .field .string⟩, ⟨3, "time", .timestamp⟩], [1]⟩)]⟩
    ⟨4, 1⟩
    (by unfold FreshTables; decide) rfl

/-! ## Parallel characterizations of the line loop

These recompute, by a recursion separate from `processLines`, which lines of
the input qualify, which bytes accrue, which catalog ops accumulate, and
which line fails first; the loop lemmas below relate them to the loop. -/

/-- The raw-input byte count of exactly the lines that qualify, threading
the shadow schema and the id counters the way the loop does.  Rejected and
untokenizable lines contribute zero bytes. -/
def qualifiedRawBytes (it : Int) (prec : Precision) :
    DatabaseSchema → MintState → Nat → LpInput → Nat
  | _, _, _, [] => 0
  | schema, st, idx, (_, .error _) :: rest =>
    qualifiedRawBytes it prec schema st (idx + 1) rest
  | schema, st, idx, (raw, .ok l) :: rest =>
    match validate_and_qualify_line schema st idx l it prec with
    | (.ok _, s1, st1) => raw.utf8ByteSize + qualifiedRawBytes it prec s1 st1 (idx + 1) rest
    | (.error _, s1, st1) => qualifiedRawBytes it prec s1 st1 (idx + 1) rest

/-- The catalog ops of exactly the lines that qualify, in source order. -/
def collectOps (it : Int) (prec : Precision) :
    DatabaseSchema → MintState → Nat → LpInput → List CatalogOp
  | _, _, _, [] => []
  | schema, st, idx, (_, .error _) :: rest =>
    collectOps it prec schema st (idx + 1) rest
  | schema, st, idx, (_, .ok l) :: rest =>
    match validate_and_qualify_line schema st idx l it prec with
    | (.ok (_, op), s1, st1) => op.toList ++ collectOps it prec s1 st1 (idx + 1) rest
    | (.error _, s1, st1) => collectOps it prec s1 st1 (idx + 1) rest

/-- The first per-line failure (tokenization or qualification) of the
sequential qualification trace, threading state the way the loop does. -/
def firstFailure (it : Int) (prec : Precision) :
    DatabaseSchema → MintState → Nat → LpInput → Option WriteLineError
  | _, _, _, [] => none
  | _, _, idx, (raw, .error msg) :: _ => some ⟨raw, idx + 1, msg⟩
  | schema, st, idx, (_, .ok l) :: rest =>
    match validate_and_qualify_line schema st idx l it prec with
    | (.error e, _, _) => some e
    | (.ok _, s1, st1) => firstFailure it prec s1 st1 (idx + 1) rest

lemma processLines_partial_ok (it : Int) (p : Precision) (input : LpInput) :
    ∀ (acc : LoopAcc) (idx : Nat), ∃ acc2,
      processLines true it p acc idx input = .ok acc2 ∧
      acc2.lines.length + acc2.errors.length
        = acc.lines.length + acc.errors.length + input.length := by
  induction input with
  | nil => intro acc idx; exact ⟨acc, rfl, by simp [processLines]⟩
  | cons hd tl ih =>
    intro acc idx
    obtain ⟨raw, parsed⟩ := hd
    cases parsed with
    | error msg =>
      obtain ⟨acc2, h1, h2⟩ := ih { acc with errors := acc.errors ++ [⟨raw, idx + 1, msg⟩] } (idx + 1)
      refine ⟨acc2, ?_, ?_⟩
      · simp [processLines, h1]
      · simp at h2 ⊢; omega
    | ok l =>
      rcases hv : validate_and_qualify_line acc.schema acc.mint idx l it p with ⟨res, s1, st1⟩
      cases res with
      | error e =>
        obtain ⟨acc2, h1, h2⟩ := ih
          { acc with schema := s1, mint := st1, errors := acc.errors ++ [e] } (idx + 1)
        refine ⟨acc2, ?_, ?_⟩
        · simp [processLines, hv, h1]
        · simp at h2 ⊢; omega
      | ok qlop =>
        obtain ⟨ql, op⟩ := qlop
        obtain ⟨acc2, h1, h2⟩ := ih
          { acc with
            schema := s1
            mint := st1
            bytes := acc.bytes + raw.utf8ByteSize
            ops := acc.ops ++ op.toList
            lines := acc.lines ++ [ql] } (idx + 1)
        refine ⟨acc2, ?_, ?_⟩
        · simp [processLines, hv, h1]
        · simp at h2 ⊢; omega

lemma processLines_ok_bytes (it : Int) (p : Precision) (ap : Bool) (input : LpInput) :
    ∀ (acc acc2 : LoopAcc) (idx : Nat),
      processLines ap it p acc idx input = .ok acc2 →
      acc2.bytes = acc.bytes + qualifiedRawBytes it p acc.schema acc.mint idx input := by
  induction input with
  | nil =>
    intro acc acc2 idx h
    simp only [processLines, Except.ok.injEq] at h
    subst h
    simp [qualifiedRawBytes]
  | cons hd tl ih =>
    intro acc acc2 idx h
    obtain ⟨raw, parsed⟩ := hd
    cases parsed with
    | error msg =>
      cases ap with
      | false => simp [processLines] at h
      | true =>
        simp only [processLines, if_true] at h
        have := ih _ _ _ h
        simpa [qualifiedRawBytes] using this
    | ok l =>
      rcases hv : validate_and_qualify_line acc.schema acc.mint idx l it p with ⟨res, s1, st1⟩
      cases res with
      | error e =>
        cases ap with
        | false => simp [processLines, hv] at h
        | true =>
          simp only [processLines, hv, if_true] at h
          have := ih _ _ _ h
          simpa [qualifiedRawBytes, hv] using this
      | ok qlop =>
        obtain ⟨ql, op⟩ := qlop
        simp only [processLines, hv] at h
        have := ih _ _ _ h
        simp only [qualifiedRawBytes, hv]
        simp at this
        omega

lemma processLines_ok_ops (it : Int) (p : Precision) (ap : Bool) (input : LpInput) :
    ∀ (acc acc2 : LoopAcc) (idx : Nat),
      processLines ap it p acc idx input = .ok acc2 →
      acc2.ops = acc.ops ++ collectOps it p acc.schema acc.mint idx input := by
  induction input with
  | nil =>
    intro acc acc2 idx h
    simp only [processLines, Except.ok.injEq] at h
    subst h
    simp [collectOps]
  | cons hd tl ih =>
    intro acc acc2 idx h
    obtain ⟨raw, parsed⟩ := hd
    cases parsed with
    | error msg =>
      cases ap with
      | false => simp [processLines] at h
      | true =>
        simp only [processLines, if_true] at h
        have := ih _ _ _ h
        simpa [collectOps] using this
    | ok l =>
      rcases hv : validate_and_qualify_line acc.schema acc.mint idx l it p with ⟨res, s1, st1⟩
      cases res with
      | error e =>
        cases ap with
        | false => simp [processLines, hv] at h
        | true =>
          simp only [processLines, hv, if_true] at h
          have := ih _ _ _ h
          simpa [collectOps, hv] using this
      | ok qlop =>
        obtain ⟨ql, op⟩ := qlop
        simp only [processLines, hv] at h
        have := ih _ _ _ h
        simp only [collectOps, hv]
        simp at this
        simp [this]

lemma processLines_strict_error (it : Int) (p : Precision) (input : LpInput) :
    ∀ (acc : LoopAcc) (idx : Nat) (ew : WriteLineError),
      firstFailure it p acc.schema acc.mint idx input = some ew →
      processLines false it p acc idx input = .error ew := by
  induction input with
  | nil => intro acc idx ew h; simp [firstFailure] at h
  | cons hd tl ih =>
    intro acc idx ew h
    obtain ⟨raw, parsed⟩ := hd
    cases parsed with
    | error msg =>
      simp only [firstFailure, Option.some.injEq] at h
      simp [processLines, ← h]
    | ok l =>
      rcases hv : validate_and_qualify_line acc.schema acc.mint idx l it p with ⟨res, s1, st1⟩
      cases res with
      | error e =>
        simp only [firstFailure, hv, Option.some.injEq] at h
        simp [processLines, hv, ← h]
      | ok qlop =>
        obtain ⟨ql, op⟩ := qlop
        simp only [firstFailure, hv] at h
        simp only [processLines, hv]
        exact ih _ _ _ h

lemma validate_err_anatomy {schema : DatabaseSchema} {st : MintState} {k : Nat}
    {l : ParsedLine} {it : Int} {p : Precision} {e : WriteLineError}
    {s1 : DatabaseSchema} {st1 : MintState}
    (h : validate_and_qualify_line schema st k l it p = (.error e, s1, st1)) :
    e.line_number = k + 1 ∧ e.original_line = l.display := by
  simp only [validate_and_qualify_line] at h
  repeat' split at h
  any_goals simp at h
  all_goals obtain ⟨he, hsx, hstx⟩ := h
  all_goals subst he
  all_goals exact ⟨rfl, rfl⟩

lemma firstFailure_anatomy (it : Int) (p : Precision) (input : LpInput) :
    ∀ (schema : DatabaseSchema) (st : MintState) (idx : Nat) (ew : WriteLineError),
      firstFailure it p schema st idx input = some ew →
      ∃ j raw pr, input[j]? = some (raw, pr) ∧ ew.line_number = idx + j + 1 ∧
        (∀ msg, pr = .error msg → ew.original_line = raw ∧ ew.error_message = msg) ∧
        (∀ l, pr = .ok l → ew.original_line = l.display) := by
  induction input with
  | nil => intro schema st idx ew h; simp [firstFailure] at h
  | cons hd tl ih =>
    intro schema st idx ew h
    obtain ⟨raw, parsed⟩ := hd
    cases parsed with
    | error msg =>
      simp only [firstFailure, Option.some.injEq] at h
      subst h
      refine ⟨0, raw, .error msg, by simp, by simp, ?_, ?_⟩
      · intro msg2 hm
        injection hm with hm
        subst hm
        exact ⟨rfl, rfl⟩
      · intro l2 hl
        simp at hl
    | ok l =>
      rcases hv : validate_and_qualify_line schema st idx l it p with ⟨res, s1, st1⟩
      cases res with
      | error e =>
        simp only [firstFailure, hv, Option.some.injEq] at h
        subst h
        obtain ⟨h1, h2⟩ := validate_err_anatomy hv
        refine ⟨0, raw, .ok l, by simp, by simp [h1], ?_, ?_⟩
        · intro msg hm; simp at hm
        · intro l2 hl
          injection hl with hl
          subst hl
          exact h2
      | ok qlop =>
        simp only [firstFailure, hv] at h
        obtain ⟨j, raw2, pr2, hget, hln, he1, he2⟩ := ih _ _ _ _ h
        refine ⟨j + 1, raw2, pr2, by simpa using hget, by omega, he1, he2⟩

/-! ## Claim C1 — all-or-nothing abort with no catalog movement -/

/-- C1 counterexample: a strict-mode batch whose second line is written
with non-canonical spacing, `cpu,tag1=foo  val1=5i  1237`, fails
qualification with a type mismatch; the returned `ParseError`'s
`original_line` is the parsed line's canonical re-serialization
`cpu,tag1=foo val1=5i 1237` — `line.to_string()`, validator.rs line 202 —
not the original input text, refuting the claim that the carried error
holds the failing line's original text. -/
theorem c1_original_text_counterexample :
    (parse_lines_and_update_schema ⟨⟨0, []⟩, ⟨0, "test", []⟩, 0⟩ ⟨0, 0⟩
        [("cpu,tag1=foo val1=\"bar\" 1234",
          .ok ⟨⟨"cpu", some [("tag1", "foo")]⟩, [("val1", .str "bar")], some 1234⟩),
         ("cpu,tag1=foo  val1=5i  1237",
          .ok ⟨⟨"cpu", some [("tag1", "foo")]⟩, [("val1", .i64 5)], some 1237⟩)]
        false 0 .auto).1
      = .error (.parseError ⟨"cpu,tag1=foo val1=5i 1237", 2,
          typeMismatchMessage "val1" 1 (.field .string) (.field .integer)⟩) ∧
    "cpu,tag1=foo val1=5i 1237" ≠ "cpu,tag1=foo  val1=5i  1237" := by
  constructor
  · rfl
  · decide

/-- C1 as amended: when the sequential qualification trace has a failing
line and `accept_partial` is off, `parse_lines_and_update_schema` aborts
the whole batch with a `ParseError` carrying that line's `WriteLineError`,
the catalog is returned exactly as it was (so `apply_catalog_batch` was
never invoked and the catalog version is unchanged), and the carried error
holds the failing line's 1-based index, its message, and its line text —
the raw input text for tokenization failures, but for qualification
failures the parsed line's re-serialization, as `line.to_string()`
(validator.rs line 202) produces it, which is not always the original
payload text. -/
theorem c1_strict_abort_atomicity (s : WithCatalog) (mint : MintState) (input : LpInput)
    (it : Int) (p : Precision) (ew : WriteLineError)
    (hf : firstFailure it p s.db_schema mint 0 input = some ew) :
    parse_lines_and_update_schema s mint input false it p
      = (.error (.parseError ew), s.catalog, mint) ∧
    ∃ k raw pr, input[k]? = some (raw, pr) ∧ ew.line_number = k + 1 ∧
      (∀ msg, pr = .error msg → ew.original_line = raw ∧ ew.error_message = msg) ∧
      (∀ l, pr = .ok l → ew.original_line = l.display) := by
  have hpl : processLines false it p ⟨s.db_schema, mint, [], [], 0, []⟩ 0 input = .error ew :=
    processLines_strict_error it p input ⟨s.db_schema, mint, [], [], 0, []⟩ 0 ew hf
  constructor
  · unfold parse_lines_and_update_schema
    rw [hpl]
  · obtain ⟨j, raw, pr, hget, hln, h1, h2⟩ := firstFailure_anatomy it p input _ _ _ _ hf
    exact ⟨j, raw, pr, hget, by omega, h1, h2⟩

/-! ## Claim C3 — line_count accounting -/

/-- C3 counterexample: a two-line batch under `accept_partial = true` whose
second line is rejected (type mismatch) reports `line_count = 1` and one
error, so `line_count` does not equal the number of input lines attempted
(2 = qualified 1 + rejected 1) as the claim states. -/
theorem c3_line_count_counterexample :
    ((parse_lines_and_update_schema ⟨⟨0, []⟩, ⟨0, "test", []⟩, 0⟩ ⟨0, 0⟩
        [("cpu,tag1=foo val1=\"bar\" 1234",
          .ok ⟨⟨"cpu", some [("tag1", "foo")]⟩, [("val1", .str "bar")], some 1234⟩),
         ("cpu,tag1=foo val1=5i 1237",
          .ok ⟨⟨"cpu", some [("tag1", "foo")]⟩, [("val1", .i64 5)], some 1237⟩)]
        true 0 .auto).1.toOption.map
      (fun lp => ((convert_lines_to_buffer lp 300000000000).line_count,
                  (convert_lines_to_buffer lp 300000000000).errors.length)))
      = some (1, 1) ∧ (1 : Nat) ≠ 2 := by
  constructor
  · rfl
  · decide

/-- C3 as amended: `line_count` is the number of successfully qualified
lines (`lines.len()`), not the number of lines attempted; the second half
of the claim stands: under `accept_partial = true` every tokenized line
lands in exactly one of `lines` or `errors`, so
`qualified + rejected = total lines tokenized`. -/
theorem c3_amended_line_count (s : WithCatalog) (mint : MintState) (input : LpInput)
    (it : Int) (p : Precision) (lp : LinesParsed) (cat2 : Catalog) (m2 : MintState) (w : Int)
    (h : parse_lines_and_update_schema s mint input true it p = (.ok lp, cat2, m2)) :
    (convert_lines_to_buffer lp w).line_count = lp.lines.length ∧
    (convert_lines_to_buffer lp w).errors = lp.errors ∧
    lp.lines.length + lp.errors.length = input.length := by
  refine ⟨rfl, rfl, ?_⟩
  obtain ⟨acc2, hok, hcount⟩ :=
    processLines_partial_ok it p input ⟨s.db_schema, mint, [], [], 0, []⟩ 0
  simp only [parse_lines_and_update_schema, hok] at h
  split at h
  all_goals simp only [Prod.mk.injEq, Except.ok.injEq] at h
  all_goals obtain ⟨h1, h2, h3⟩ := h
  all_goals subst h1
  all_goals simpa using hcount

/-! ## Claim C7 — byte accounting over qualified lines -/

/-- C7: the `valid_bytes_count` reported by `convert_lines_to_buffer` is the
sum of the raw input byte lengths of exactly the successfully qualified
lines (as recomputed by the independent recursion `qualifiedRawBytes`);
per-line rejected and untokenizable lines contribute zero bytes. -/
theorem c7_valid_bytes_raw_qualified (s : WithCatalog) (mint : MintState) (input : LpInput)
    (ap : Bool) (it : Int) (p : Precision) (lp : LinesParsed) (cat2 : Catalog)
    (m2 : MintState) (w : Int)
    (h : parse_lines_and_update_schema s mint input ap it p = (.ok lp, cat2, m2)) :
    (convert_lines_to_buffer lp w).valid_bytes_count
      = qualifiedRawBytes it p s.db_schema mint 0 input := by
  cases hok : processLines ap it p ⟨s.db_schema, mint, [], [], 0, []⟩ 0 input with
  | error e =>
    simp only [parse_lines_and_update_schema, hok] at h
    simp at h
  | ok acc2 =>
    have hb := processLines_ok_bytes it p ap input _ _ _ hok
    simp only [parse_lines_and_update_schema, hok] at h
    split at h
    all_goals simp only [Prod.mk.injEq, Except.ok.injEq] at h
    all_goals obtain ⟨h1, h2, h3⟩ := h
    all_goals subst h1
    all_goals simpa using hb

/-! ## Claim C9 — catalog batch publication -/

/-- C9: within one `parse_lines_and_update_schema` call,
`apply_catalog_batch` runs if and only if the line loop accumulated at
least one catalog op (as recomputed by the independent recursion
`collectOps`): with no ops the Parsed state's batch is absent and the
catalog is untouched; with ops the submitted `CatalogBatch` holds exactly
the accumulated ops in source order together with the validator's
`database_id`, `database_name` and `time_now_ns`, and the catalog advances
one version, recording exactly that batch. -/
theorem c9_catalog_batch_exactly_ops (s : WithCatalog) (mint : MintState) (input : LpInput)
    (ap : Bool) (it : Int) (p : Precision) (lp : LinesParsed) (cat2 : Catalog)
    (m2 : MintState)
    (h : parse_lines_and_update_schema s mint input ap it p = (.ok lp, cat2, m2)) :
    (collectOps it p s.db_schema mint 0 input = [] →
      lp.catalog_batch = none ∧ cat2 = s.catalog) ∧
    (collectOps it p s.db_schema mint 0 input ≠ [] →
      lp.catalog_batch = some ⟨⟨s.db_schema.id, s.time_now_ns, s.db_schema.name,
          collectOps it p s.db_schema mint 0 input⟩, s.catalog.version⟩ ∧
      cat2.version = s.catalog.version + 1 ∧
      cat2.applied = s.catalog.applied ++ [⟨s.db_schema.id, s.time_now_ns, s.db_schema.name,
          collectOps it p s.db_schema mint 0 input⟩]) := by
  cases hok : processLines ap it p ⟨s.db_schema, mint, [], [], 0, []⟩ 0 input with
  | error e =>
    simp only [parse_lines_and_update_schema, hok] at h
    simp at h
  | ok acc2 =>
    have hops := processLines_ok_ops it p ap input _ _ _ hok
    simp only [List.nil_append] at hops
    simp only [parse_lines_and_update_schema, hok] at h
    split at h
    next hemp =>
      simp only [Prod.mk.injEq, Except.ok.injEq] at h
      obtain ⟨h1, h2, h3⟩ := h
      subst h1
      have hc : collectOps it p s.db_schema mint 0 input = [] := by
        rw [← hops]
        exact List.isEmpty_eq_true.mp hemp
      constructor
      · intro; exact ⟨rfl, h2.symm⟩
      · intro hne; exact absurd hc hne
    next hemp =>
      simp only [Catalog.apply_catalog_batch, Prod.mk.injEq, Except.ok.injEq] at h
      obtain ⟨h1, h2, h3⟩ := h
      subst h1
      have hc : collectOps it p s.db_schema mint 0 input ≠ [] := by
        rw [← hops]
        intro hx
        rw [hx] at hemp
        simp at hemp
      constructor
      · intro hx; exact absurd hx hc
      · intro
        refine ⟨by rw [← hops], ?_, ?_⟩
        · rw [← h2]
        · rw [← h2, ← hops]

/-- Witness for C1: a one-line batch whose line fails qualification (stored
`val1 : Field(String)`, incoming integer) aborts with the corresponding
`ParseError` and leaves the catalog untouched. -/
theorem c1_strict_abort_atomicity_witness :
    parse_lines_and_update_schema
        ⟨⟨7, []⟩, ⟨0, "test", [(0, ⟨0, "cpu",
          [⟨1, "tag1", .tag⟩, ⟨2, "val1", .field .string⟩, ⟨3, "time", .timestamp⟩],
          [1]⟩)]⟩, 99⟩
        ⟨4, 1⟩ [("cpu val1=5i 1237", .ok ⟨⟨"cpu", none⟩, [("val1", .i64 5)], some 1237⟩)]
        false 0 .auto
      = (.error (.parseError ⟨"cpu val1=5i 1237", 1,
          "invalid field value in line protocol for field 'val1' on line 0: expected type iox::column_type::field::string, but got iox::column_type::field::integer"⟩),
         ⟨7, []⟩, ⟨4, 1⟩) ∧
    ∃ k raw pr,
      ([("cpu val1=5i 1237",
          (.ok ⟨⟨"cpu", none⟩, [("val1", .i64 5)], some 1237⟩ : Except String ParsedLine))])[k]?
        = some (raw, pr) ∧
      (⟨"cpu val1=5i 1237", 1,
        "invalid field value in line protocol for field 'val1' on line 0: expected type iox::column_type::field::string, but got iox::column_type::field::integer"⟩
        : WriteLineError).line_number = k + 1 ∧
      (∀ msg, pr = .error msg →
        (⟨"cpu val1=5i 1237", 1,
          "invalid field value in line protocol for field 'val1' on line 0: expected type iox::column_type::field::string, but got iox::column_type::field::integer"⟩
          : WriteLineError).original_line = raw ∧
        (⟨"cpu val1=5i 1237", 1,
          "invalid field value in line protocol for field 'val1' on line 0: expected type iox::column_type::field::string, but got iox::column_type::field::integer"⟩
          : WriteLineError).error_message = msg) ∧
      (∀ l, pr = .ok l →
        (⟨"cpu val1=5i 1237", 1,
          "invalid field value in line protocol for field 'val1' on line 0: expected type iox::column_type::field::string, but got iox::column_type::field::integer"⟩
          : WriteLineError).original_line = l.display) :=
  c1_strict_abort_atomicity
    ⟨⟨7, []⟩, ⟨0, "test", [(0, ⟨0, "cpu",
      [⟨1, "tag1", .tag⟩, ⟨2, "val1", .field .string⟩, ⟨3, "time", .timestamp⟩],
      [1]⟩)]⟩, 99⟩
    ⟨4, 1⟩ [("cpu val1=5i 1237", .ok ⟨⟨"cpu", none⟩, [("val1", .i64 5)], some 1237⟩)]
    0 .auto
    ⟨"cpu val1=5i 1237", 1,
      "invalid field value in line protocol for field 'val1' on line 0: expected type iox::column_type::field::string, but got iox::column_type::field::integer"⟩
    rfl

/-- Witness for the amended C3: a one-line batch that fully qualifies
reports `line_count = 1` and `1 + 0 = 1` lines tokenized. -/
theorem c3_amended_line_count_witness :
    (convert_lines_to_buffer
      ⟨⟨⟨7, []⟩, ⟨0, "test", [(0, ⟨0, "cpu",
          [⟨1, "tag1", .tag⟩, ⟨2, "val1", .field .string⟩, ⟨3, "time", .timestamp⟩],
          [1]⟩)]⟩, 99⟩,
        [⟨0, ⟨1235000000000, [⟨1, .tag "foo"⟩, ⟨2, .string "bar"⟩,
          ⟨3, .timestamp 1235000000000⟩]⟩, 1, 1⟩],
        28, none, []⟩ 300000000000).line_count
      = ([⟨0, ⟨1235000000000, [⟨1, .tag "foo"⟩, ⟨2, .string "bar"⟩,
          ⟨3, .timestamp 1235000000000⟩]⟩, 1, 1⟩] : List QualifiedLine).length ∧
    (convert_lines_to_buffer
      ⟨⟨⟨7, []⟩, ⟨0, "test", [(0, ⟨0, "cpu",
          [⟨1, "tag1", .tag⟩, ⟨2, "val1", .field .string⟩, ⟨3, "time", .timestamp⟩],
          [1]⟩)]⟩, 99⟩,
        [⟨0, ⟨1235000000000, [⟨1, .tag "foo"⟩, ⟨2, .string "bar"⟩,
          ⟨3, .timestamp 1235000000000⟩]⟩, 1, 1⟩],
        28, none, []⟩ 300000000000).errors = [] ∧
    ([⟨0, ⟨1235000000000, [⟨1, .tag "foo"⟩, ⟨2, .string "bar"⟩,
        ⟨3, .timestamp 1235000000000⟩]⟩, 1, 1⟩] : List QualifiedLine).length
      + ([] : List WriteLineError).length
      = ([("cpu,tag1=foo val1=\"bar\" 1235",
          (.ok ⟨⟨"cpu", some [("tag1", "foo")]⟩, [("val1", .str "bar")], some 1235⟩
            : Except String ParsedLine))]).length :=
  c3_amended_line_count
    ⟨⟨7, []⟩, ⟨0, "test", [(0, ⟨0, "cpu",
      [⟨1, "tag1", .tag⟩, ⟨2, "val1", .field .string⟩, ⟨3, "time", .timestamp⟩],
      [1]⟩)]⟩, 99⟩
    ⟨4, 1⟩
    [("cpu,tag1=foo val1=\"bar\" 1235",
      .ok ⟨⟨"cpu", some [("tag1", "foo")]⟩, [("val1", .str "bar")], some 1235⟩)]
    0 .auto
    ⟨⟨⟨7, []⟩, ⟨0, "test", [(0, ⟨0, "cpu",
        [⟨1, "tag1", .tag⟩, ⟨2, "val1", .field .string⟩, ⟨3, "time", .timestamp⟩],
        [1]⟩)]⟩, 99⟩,
      [⟨0, ⟨1235000000000, [⟨1, .tag "foo"⟩, ⟨2, .string "bar"⟩,
        ⟨3, .timestamp 1235000000000⟩]⟩, 1, 1⟩],
      28, none, []⟩
    ⟨7, []⟩ ⟨4, 1⟩ 300000000000 rfl

/-- Witness for C7: a two-line batch under partial acceptance whose second
line is rejected counts only the first raw line's 28 bytes. -/
theorem c7_valid_bytes_raw_qualified_witness :
    (convert_lines_to_buffer
      ⟨⟨⟨7, []⟩, ⟨0, "test", [(0, ⟨0, "cpu",
          [⟨1, "tag1", .tag⟩, ⟨2, "val1", .field .string⟩, ⟨3, "time", .timestamp⟩],
          [1]⟩)]⟩, 99⟩,
        [⟨0, ⟨1235000000000, [⟨1, .tag "foo"⟩, ⟨2, .string "bar"⟩,
          ⟨3, .timestamp 1235000000000⟩]⟩, 1, 1⟩],
        28, none,
        [⟨"cpu,tag1=foo val1=5i 1237", 2,
          "invalid field value in line protocol for field 'val1' on line 1: expected type iox::column_type::field::string, but got iox::column_type::field::integer"⟩]⟩
      300000000000).valid_bytes_count
      = qualifiedRawBytes 0 .auto
          ⟨0, "test", [(0, ⟨0, "cpu",
            [⟨1, "tag1", .tag⟩, ⟨2, "val1", .field .string⟩, ⟨3, "time", .timestamp⟩],
            [1]⟩)]⟩
          ⟨4, 1⟩ 0
          [("cpu,tag1=foo val1=\"bar\" 1235",
            .ok ⟨⟨"cpu", some [("tag1", "foo")]⟩, [("val1", .str "bar")], some 1235⟩),
           ("cpu,tag1=foo val1=5i 1237",
            .ok ⟨⟨"cpu", some [("tag1", "foo")]⟩, [("val1", .i64 5)], some 1237⟩)] :=
  c7_valid_bytes_raw_qualified
    ⟨⟨7, []⟩, ⟨0, "test", [(0, ⟨0, "cpu",
      [⟨1, "tag1", .tag⟩, ⟨2, "val1", .field .string⟩, ⟨3, "time", .timestamp⟩],
      [1]⟩)]⟩, 99⟩
    ⟨4, 1⟩
    [("cpu,tag1=foo val1=\"bar\" 1235",
      .ok ⟨⟨"cpu", some [("tag1", "foo")]⟩, [("val1", .str "bar")], some 1235⟩),
     ("cpu,tag1=foo val1=5i 1237",
      .ok ⟨⟨"cpu", some [("tag1", "foo")]⟩, [("val1", .i64 5)], some 1237⟩)]
    true 0 .auto
    ⟨⟨⟨7, []⟩, ⟨0, "test", [(0, ⟨0, "cpu",
        [⟨1, "tag1", .tag⟩, ⟨2, "val1", .field .string⟩, ⟨3, "time", .timestamp⟩],
        [1]⟩)]⟩, 99⟩,
      [⟨0, ⟨1235000000000, [⟨1, .tag "foo"⟩, ⟨2, .string "bar"⟩,
        ⟨3, .timestamp 1235000000000⟩]⟩, 1, 1⟩],
      28, none,
      [⟨"cpu,tag1=foo val1=5i 1237", 2,
        "invalid field value in line protocol for field 'val1' on line 1: expected type iox::column_type::field::string, but got iox::column_type::field::integer"⟩]⟩
    ⟨7, []⟩ ⟨4, 1⟩ 300000000000 rfl

/-- Witness for C9: a one-line batch creating a new table publishes exactly
its `CreateTable` op with the validator's database id, name and wall time,
and advances the catalog one version. -/
theorem c9_catalog_batch_exactly_ops_witness :
    (collectOps 0 .nanosecond ⟨3, "db", []⟩ ⟨0, 0⟩ 0
        [("m v=1i 5", .ok ⟨⟨"m", none⟩, [("v", .i64 1)], some 5⟩)] = [] →
      (⟨⟨⟨8, [⟨1, 42, "x", []⟩, ⟨3, 55, "db",
          [.createTable ⟨0, 3, "db", "m",
            [⟨0, "v", .field .integer⟩, ⟨1, "time", .timestamp⟩], []⟩]⟩]⟩,
          ⟨3, "db", []⟩, 55⟩,
        [⟨0, ⟨5, [⟨0, .integer 1⟩, ⟨1, .timestamp 5⟩]⟩, 0, 1⟩], 8,
        some ⟨⟨3, 55, "db",
          [.createTable ⟨0, 3, "db", "m",
            [⟨0, "v", .field .integer⟩, ⟨1, "time", .timestamp⟩], []⟩]⟩, 7⟩,
        []⟩ : LinesParsed).catalog_batch = none ∧
      (⟨8, [⟨1, 42, "x", []⟩, ⟨3, 55, "db",
        [.createTable ⟨0, 3, "db", "m",
          [⟨0, "v", .field .integer⟩, ⟨1, "time", .timestamp⟩], []⟩]⟩]⟩ : Catalog)
        = ⟨7, [⟨1, 42, "x", []⟩]⟩) ∧
    (collectOps 0 .nanosecond ⟨3, "db", []⟩ ⟨0, 0⟩ 0
        [("m v=1i 5", .ok ⟨⟨"m", none⟩, [("v", .i64 1)], some 5⟩)] ≠ [] →
      (⟨⟨⟨8, [⟨1, 42, "x", []⟩, ⟨3, 55, "db",
          [.createTable ⟨0, 3, "db", "m",
            [⟨0, "v", .field .integer⟩, ⟨1, "time", .timestamp⟩], []⟩]⟩]⟩,
          ⟨3, "db", []⟩, 55⟩,
        [⟨0, ⟨5, [⟨0, .integer 1⟩, ⟨1, .timestamp 5⟩]⟩, 0, 1⟩], 8,
        some ⟨⟨3, 55, "db",
          [.createTable ⟨0, 3, "db", "m",
            [⟨0, "v", .field .integer⟩, ⟨1, "time", .timestamp⟩], []⟩]⟩, 7⟩,
        []⟩ : LinesParsed).catalog_batch
        = some ⟨⟨3, 55, "db",
            collectOps 0 .nanosecond ⟨3, "db", []⟩ ⟨0, 0⟩ 0
              [("m v=1i 5", .ok ⟨⟨"m", none⟩, [("v", .i64 1)], some 5⟩)]⟩, 7⟩ ∧
      (⟨8, [⟨1, 42, "x", []⟩, ⟨3, 55, "db",
        [.createTable ⟨0, 3, "db", "m",
          [⟨0, "v", .field .integer⟩, ⟨1, "time", .timestamp⟩], []⟩]⟩]⟩ : Catalog).version
        = 7 + 1 ∧
      (⟨8, [⟨1, 42, "x", []⟩, ⟨3, 55, "db",
        [.createTable ⟨0, 3, "db", "m",
          [⟨0, "v", .field .integer⟩, ⟨1, "time", .timestamp⟩], []⟩]⟩]⟩ : Catalog).applied
        = [⟨1, 42, "x", []⟩]
          ++ [⟨3, 55, "db",
            collectOps 0 .nanosecond ⟨3, "db", []⟩ ⟨0, 0⟩ 0
              [("m v=1i 5", .ok ⟨⟨"m", none⟩, [("v", .i64 1)], some 5⟩)]⟩]) :=
  c9_catalog_batch_exactly_ops
    ⟨⟨7, [⟨1, 42, "x", []⟩]⟩, ⟨3, "db", []⟩, 55⟩ ⟨0, 0⟩
    [("m v=1i 5", .ok ⟨⟨"m", none⟩, [("v", .i64 1)], some 5⟩)]
    false 0 .nanosecond
    ⟨⟨⟨8, [⟨1, 42, "x", []⟩, ⟨3, 55, "db",
        [.createTable ⟨0, 3, "db", "m",
          [⟨0, "v", .field .integer⟩, ⟨1, "time", .timestamp⟩], []⟩]⟩]⟩,
        ⟨3, "db", []⟩, 55⟩,
      [⟨0, ⟨5, [⟨0, .integer 1⟩, ⟨1, .timestamp 5⟩]⟩, 0, 1⟩], 8,
      some ⟨⟨3, 55, "db",
        [.createTable ⟨0, 3, "db", "m",
          [⟨0, "v", .field .integer⟩, ⟨1, "time", .timestamp⟩], []⟩]⟩, 7⟩,
      []⟩
    ⟨8, [⟨1, 42, "x", []⟩, ⟨3, 55, "db",
      [.createTable ⟨0, 3, "db", "m",
        [⟨0, "v", .field .integer⟩, ⟨1, "time", .timestamp⟩], []⟩]⟩]⟩
    ⟨2, 1⟩ rfl

/-! ## Claim C6 — staged columns are visible and published once

The observables: resolution of a column name through the shadow schema, and
the field definitions a batch's catalog ops carry for one `(table, column)`
pair. -/

/-- Look a table up by id in the schema's ordered map. -/
def tableById (s : DatabaseSchema) (tid : Nat) : Option TableDefinition :=
  (s.tables.find? (fun p => p.1 == tid)).map (fun p => p.2)

/-- Resolve column name `x` of table `tid` through the schema. -/
def resolveCol (s : DatabaseSchema) (tid : Nat) (x : String) : Option Nat :=
  (tableById s tid).bind (fun td => td.column_name_to_id x)

/-- The column ids that one catalog op's field definitions assign to the
column named `x` of table `tid`. -/
def opFieldIds (op : CatalogOp) (tid : Nat) (x : String) : List Nat :=
  match op with
  | .addFields fa =>
    if fa.table_id == tid then
      (fa.field_definitions.filter (fun d => d.name == x)).map (fun d => d.id)
    else []
  | .createTable wt =>
    if wt.table_id == tid then
      (wt.field_definitions.filter (fun d => d.name == x)).map (fun d => d.id)
    else []

/-- All column ids that a batch's ops assign to column `x` of table `tid`. -/
def opsFieldIds (ops : List CatalogOp) (tid : Nat) (x : String) : List Nat :=
  (ops.map (fun op => opFieldIds op tid x)).flatten

/-- The tag keys and field keys of a line, in order. -/
def lineNames (l : ParsedLine) : List String :=
  (l.series.tag_set.getD []).map Prod.fst ++ l.field_set.map Prod.fst

/-- A line as the external tokenizer produces it for well-formed input: no
duplicate key within the line and no key named `time`. -/
def wellformedLine (l : ParsedLine) : Prop :=
  (lineNames l).Nodup ∧ timeColumnName ∉ lineNames l

instance (l : ParsedLine) : Decidable (wellformedLine l) := by
  unfold wellformedLine; infer_instance

/-- The schema/counter invariant maintained by the validator: table ids are
fresh w.r.t. the counter, each entry's table carries its key as `table_id`,
and keys are unique. -/
def SchemaInv (s : DatabaseSchema) (st : MintState) : Prop :=
  FreshTables s st ∧ (∀ p ∈ s.tables, p.2.table_id = p.1) ∧
    (s.tables.map (fun p => p.1)).Nodup

/-! ### Counter bookkeeping lemmas -/

lemma qualifyTags_mint (td : TableDefinition) (st : MintState)
    (ts : List (String × String)) :
    (qualifyTags td st ts).2.2.1.nextTable = st.nextTable := by
  induction ts generalizing st with
  | nil => rfl
  | cons hd tl ih =>
    obtain ⟨tk, tv⟩ := hd
    cases hcase : td.column_name_to_id tk <;> simp only [qualifyTags, hcase] <;> exact ih _

lemma qualifyFieldsExisting_mint (td : TableDefinition) (st : MintState)
    (fs : List (String × FieldValue)) :
    (qualifyFieldsExisting td st fs).2.nextTable = st.nextTable := by
  induction fs generalizing st with
  | nil => rfl
  | cons hd tl ih =>
    obtain ⟨fn, fv⟩ := hd
    simp only [qualifyFieldsExisting]
    split
    next cpair hcd =>
      split
      next => rfl
      next =>
        split
        next fl2 cols2 n2 st2 hrec =>
          have := ih st
          rw [hrec] at this
          exact this
        next e st2 hrec =>
          have := ih st
          rw [hrec] at this
          exact this
    next hcd =>
      split
      next fl2 cols2 n2 st2 hrec =>
        have := ih ⟨st.nextCol + 1, st.nextTable⟩
        rw [hrec] at this
        exact this
      next e st2 hrec =>
        have := ih ⟨st.nextCol + 1, st.nextTable⟩
        rw [hrec] at this
        exact this

lemma qualifyTagsNew_mint (st : MintState) (ts : List (String × String)) :
    (qualifyTagsNew st ts).2.2.2.1.nextTable = st.nextTable := by
  induction ts generalizing st with
  | nil => rfl
  | cons hd tl ih =>
    obtain ⟨tk, tv⟩ := hd
    simp only [qualifyTagsNew]
    exact ih _

lemma qualifyFieldsNew_mint (st : MintState) (fs : List (String × FieldValue)) :
    (qualifyFieldsNew st fs).2.2.1.nextTable = st.nextTable := by
  induction fs generalizing st with
  | nil => rfl
  | cons hd tl ih =>
    obtain ⟨fn, fv⟩ := hd
    simp only [qualifyFieldsNew]
    exact ih _

lemma validate_nextTable_mono {schema : DatabaseSchema} {st : MintState} {k : Nat}
    {l : ParsedLine} {it : Int} {p : Precision}
    {r : Except WriteLineError (QualifiedLine × Option CatalogOp)}
    {s1 : DatabaseSchema} {st1 : MintState}
    (h : validate_and_qualify_line schema st k l it p = (r, s1, st1)) :
    st.nextTable ≤ st1.nextTable := by
  simp only [validate_and_qualify_line] at h
  repeat' split at h
  all_goals simp only [Prod.mk.injEq] at h
  all_goals obtain ⟨hr, hs, hst⟩ := h
  all_goals subst hst
  all_goals simp only [qualifyFieldsExisting_mint, qualifyTags_mint,
    qualifyFieldsNew_mint, qualifyTagsNew_mint]
  all_goals omega

/-! ### Schema-map lemmas -/

lemma find?_key_nodup_mem {l : List (Nat × TableDefinition)}
    (hnd : (l.map (fun p => p.1)).Nodup) {q : Nat × TableDefinition} (hq : q ∈ l) :
    l.find? (fun p => p.1 == q.1) = some q := by
  induction l with
  | nil => simp at hq
  | cons a tl ih =>
    rcases List.mem_cons.mp hq with h1 | h1
    · subst h1; simp [List.find?]
    · simp only [List.map_cons, List.nodup_cons] at hnd
      have ha : (a.1 == q.1) = false := by
        simp only [beq_eq_false_iff_ne]
        intro hcontra
        exact hnd.1 (hcontra ▸ List.mem_map_of_mem (fun p => p.1) h1)
      simp only [List.find?, ha]
      exact ih hnd.2 h1

lemma tableById_of_table_definition {s : DatabaseSchema}
    (hcons : ∀ p ∈ s.tables, p.2.table_id = p.1)
    (hnd : (s.tables.map (fun p => p.1)).Nodup)
    {name : String} {td : TableDefinition}
    (h : s.table_definition name = some td) :
    tableById s td.table_id = some td := by
  unfold DatabaseSchema.table_definition at h
  rcases hfind : s.tables.find? (fun p => p.2.table_name == name) with _ | q
  · rw [hfind] at h; simp at h
  · rw [hfind] at h
    simp only [Option.map_some', Option.some.injEq] at h
    have hmem := List.mem_of_find?_eq_some hfind
    have hid : td.table_id = q.1 := by rw [← h]; exact hcons q hmem
    rw [hid]
    unfold tableById
    rw [find?_key_nodup_mem hnd hmem]
    simp [h]

lemma insert_table_ok_cases {s : DatabaseSchema} {tid : Nat} {t : TableDefinition}
    {pr : Option TableDefinition} {s1 : DatabaseSchema}
    (h : s.insert_table tid t = .ok (pr, s1)) :
    s1.id = s.id ∧ s1.name = s.name ∧
    ((pr.isSome ∧ (s.tables.find? (fun p => p.1 == tid)).isSome ∧
       s1.tables = s.tables.map (fun q => if q.1 == tid then (tid, t) else q)) ∨
     (pr = none ∧ s.tables.find? (fun p => p.1 == tid) = none ∧
       s1.tables = s.tables ++ [(tid, t)])) := by
  unfold DatabaseSchema.insert_table at h
  split at h
  · simp at h
  · split at h
    next q hfind =>
      simp only [Except.ok.injEq, Prod.mk.injEq] at h
      obtain ⟨h1, h2⟩ := h
      subst h2
      refine ⟨rfl, rfl, Or.inl ⟨?_, ?_, rfl⟩⟩
      · rw [← h1]; rfl
      · rw [hfind]; rfl
    next hfind =>
      simp only [Except.ok.injEq, Prod.mk.injEq] at h
      obtain ⟨h1, h2⟩ := h
      subst h2
      exact ⟨rfl, rfl, Or.inr ⟨h1.symm, hfind, rfl⟩⟩

lemma find?_key_map_replace_ne (l : List (Nat × TableDefinition)) (tid tid2 : Nat)
    (t : TableDefinition) (hne : tid2 ≠ tid) :
    (l.map (fun q => if q.1 == tid then (tid, t) else q)).find? (fun p => p.1 == tid2)
      = l.find? (fun p => p.1 == tid2) := by
  induction l with
  | nil => rfl
  | cons a tl ih =>
    simp only [List.map_cons]
    cases hb : a.1 == tid with
    | true =>
      have ha : a.1 = tid := by simpa using hb
      rw [if_pos (by simpa using hb)]
      have h1 : (((tid, t) : Nat × TableDefinition).1 == tid2) = false := by
        simp [Ne.symm hne]
      have h2 : (a.1 == tid2) = false := by simp [ha, Ne.symm hne]
      simp only [List.find?, h1, h2]
      exact ih
    | false =>
      rw [if_neg (by simp [hb])]
      simp only [List.find?]
      cases hp : a.1 == tid2 with
      | true => rfl
      | false => exact ih

lemma find?_key_map_replace_self (l : List (Nat × TableDefinition)) (tid : Nat)
    (t : TableDefinition)
    (hsome : (l.find? (fun p => p.1 == tid)).isSome) :
    (l.map (fun q => if q.1 == tid then (tid, t) else q)).find? (fun p => p.1 == tid)
      = some (tid, t) := by
  induction l with
  | nil => simp [List.find?] at hsome
  | cons a tl ih =>
    simp only [List.map_cons]
    cases hb : a.1 == tid with
    | true =>
      rw [if_pos (by simpa using hb)]
      simp [List.find?]
    | false =>
      rw [if_neg (by simp [hb])]
      simp only [List.find?, hb]
      apply ih
      simp only [List.find?, hb] at hsome
      exact hsome

lemma keys_map_replace (l : List (Nat × TableDefinition)) (tid : Nat) (t : TableDefinition) :
    (l.map (fun q => if q.1 == tid then (tid, t) else q)).map (fun p => p.1)
      = l.map (fun p => p.1) := by
  induction l with
  | nil => rfl
  | cons a tl ih =>
    simp only [List.map_cons]
    cases hb : a.1 == tid with
    | true =>
      have ha : a.1 = tid := by simpa using hb
      rw [if_pos (by simpa using hb)]
      simp only [List.map_cons, ih]
      rw [ha]
    | false =>
      rw [if_neg (by simp [hb])]
      simp only [List.map_cons, ih]

lemma add_columns_ok_spec {td : TableDefinition}
    {cols : List (Nat × String × InfluxColumnType)} {ntd : TableDefinition}
    (h : td.add_columns cols = .ok ntd) :
    ntd = ⟨td.table_id, td.table_name,
      td.columns ++ cols.map (fun c => ⟨c.1, c.2.1, c.2.2⟩), td.key⟩ ∧
    (cols.map (fun c => c.2.1)).Nodup := by
  unfold TableDefinition.add_columns at h
  split at h
  · simp at h
  · split at h
    next hnd =>
      simp only [Except.ok.injEq] at h
      exact ⟨h.symm, hnd⟩
    next hnd => simp at h

/-! ### Staged-column characterizations of the qualification loops -/

lemma column_defs_lookup (td : TableDefinition) (x : String) :
    td.column_name_to_id x = (td.column_id_and_definition x).map (fun q => q.1) := by
  unfold TableDefinition.column_name_to_id TableDefinition.column_id_and_definition
  cases td.columns.find? (fun c => c.name == x) <;> rfl

lemma qualifyTags_staged_lookup (td : TableDefinition) (ts : List (String × String)) :
    ∀ st, ∀ c ∈ (qualifyTags td st ts).2.1, td.column_name_to_id c.2.1 = none := by
  induction ts with
  | nil => intro st c hc; simp [qualifyTags] at hc
  | cons hd tl ih =>
    intro st c hc
    obtain ⟨tk, tv⟩ := hd
    cases hcase : td.column_name_to_id tk <;> simp only [qualifyTags, hcase] at hc
    · rcases List.mem_cons.mp hc with h1 | h1
      · subst h1; exact hcase
      · exact ih _ c h1
    · exact ih _ c hc

lemma qualifyTags_staged_names_sublist (td : TableDefinition) (ts : List (String × String)) :
    ∀ st, ((qualifyTags td st ts).2.1.map (fun c => c.2.1)).Sublist (ts.map Prod.fst) := by
  induction ts with
  | nil => intro st; simp [qualifyTags]
  | cons hd tl ih =>
    intro st
    obtain ⟨tk, tv⟩ := hd
    cases hcase : td.column_name_to_id tk <;> simp only [qualifyTags, hcase, List.map_cons]
    · exact List.Sublist.cons₂ tk (ih _)
    · exact List.Sublist.cons tk (ih _)

lemma qualifyFieldsExisting_staged_lookup (td : TableDefinition)
    (fs : List (String × FieldValue)) :
    ∀ st fl cols n, (qualifyFieldsExisting td st fs).1 = .ok (fl, cols, n) →
      ∀ c ∈ cols, td.column_name_to_id c.2.1 = none := by
  induction fs with
  | nil =>
    intro st fl cols n he c hc
    simp only [qualifyFieldsExisting, Except.ok.injEq, Prod.mk.injEq] at he
    obtain ⟨h1, h2, h3⟩ := he
    subst h2; simp at hc
  | cons hd tl ih =>
    intro st fl cols n he c hc
    obtain ⟨fn, fv⟩ := hd
    simp only [qualifyFieldsExisting] at he
    split at he
    next cpair hcd =>
      split at he
      next hne => simp at he
      next hne =>
        split at he
        next fl2 cols2 n2 st2 hrec =>
          simp only [Except.ok.injEq, Prod.mk.injEq] at he
          obtain ⟨h1, h2, h3⟩ := he
          subst h2
          exact ih _ _ _ _ (by rw [hrec]) c hc
        next => simp at he
    next hcd =>
      split at he
      next fl2 cols2 n2 st2 hrec =>
        simp only [Except.ok.injEq, Prod.mk.injEq] at he
        obtain ⟨h1, h2, h3⟩ := he
        subst h2
        rcases List.mem_cons.mp hc with h1 | h1
        · subst h1
          rw [column_defs_lookup, hcd]
          rfl
        · exact ih _ _ _ _ (by rw [hrec]) c h1
      next => simp at he

lemma qualifyFieldsExisting_staged_names_sublist (td : TableDefinition)
    (fs : List (String × FieldValue)) :
    ∀ st fl cols n, (qualifyFieldsExisting td st fs).1 = .ok (fl, cols, n) →
      (cols.map (fun c => c.2.1)).Sublist (fs.map Prod.fst) := by
  induction fs with
  | nil =>
    intro st fl cols n he
    simp only [qualifyFieldsExisting, Except.ok.injEq, Prod.mk.injEq] at he
    obtain ⟨h1, h2, h3⟩ := he
    subst h2; simp
  | cons hd tl ih =>
    intro st fl cols n he
    obtain ⟨fn, fv⟩ := hd
    simp only [qualifyFieldsExisting] at he
    split at he
    next cpair hcd =>
      split at he
      next hne => simp at he
      next hne =>
        split at he
        next fl2 cols2 n2 st2 hrec =>
          simp only [Except.ok.injEq, Prod.mk.injEq] at he
          obtain ⟨h1, h2, h3⟩ := he
          subst h2
          exact List.Sublist.cons fn (ih _ _ _ _ (by rw [hrec]))
        next => simp at he
    next hcd =>
      split at he
      next fl2 cols2 n2 st2 hrec =>
        simp only [Except.ok.injEq, Prod.mk.injEq] at he
        obtain ⟨h1, h2, h3⟩ := he
        subst h2
        simp only [List.map_cons]
        exact List.Sublist.cons₂ fn (ih _ _ _ _ (by rw [hrec]))
      next => simp at he

lemma qualifyTagsNew_names (ts : List (String × String)) :
    ∀ st, (qualifyTagsNew st ts).2.1.map (fun c => c.2.1) = ts.map Prod.fst := by
  induction ts with
  | nil => intro st; rfl
  | cons hd tl ih =>
    intro st
    obtain ⟨tk, tv⟩ := hd
    simp only [qualifyTagsNew, List.map_cons, ih]

lemma qualifyFieldsNew_names (fs : List (String × FieldValue)) :
    ∀ st, (qualifyFieldsNew st fs).2.1.map (fun c => c.2.1) = fs.map Prod.fst := by
  induction fs with
  | nil => intro st; rfl
  | cons hd tl ih =>
    intro st
    obtain ⟨fn, fv⟩ := hd
    simp only [qualifyFieldsNew, List.map_cons, ih]

lemma staged_filter_eq_find (cols : List (Nat × String × InfluxColumnType)) (x : String)
    (hnd : (cols.map (fun c => c.2.1)).Nodup) :
    (cols.filter (fun c => c.2.1 == x)).map (fun c => c.1)
      = ((cols.find? (fun c => c.2.1 == x)).map (fun c => c.1)).toList := by
  induction cols with
  | nil => rfl
  | cons a tl ih =>
    simp only [List.map_cons, List.nodup_cons] at hnd
    cases ha : a.2.1 == x with
    | true =>
      have hax : a.2.1 = x := by simpa using ha
      simp only [List.filter, List.find?, ha]
      have hnil : tl.filter (fun c => c.2.1 == x) = [] := by
        rw [List.filter_eq_nil_iff]
        intro b hb
        simp only [beq_iff_eq]
        intro hcontra
        exact hnd.1 (by rw [hax, ← hcontra]; exact List.mem_map_of_mem (fun c => c.2.1) hb)
      simp [hnil]
    | false =>
      simp only [List.filter, List.find?, ha]
      exact ih hnd.2

lemma fdefs_filter_ids (columns : List (Nat × String × InfluxColumnType)) (x : String) :
    ((columns.map (fun c => FieldDefinition.new c.1 c.2.1 c.2.2)).filter
        (fun d => d.name == x)).map (fun d => d.id)
      = (columns.filter (fun c => c.2.1 == x)).map (fun c => c.1) := by
  rw [List.filter_map, List.map_map]
  rfl

lemma colDefs_find?_ids (columns : List (Nat × String × InfluxColumnType)) (x : String) :
    ((columns.map (fun c => (⟨c.1, c.2.1, c.2.2⟩ : ColumnDefinition))).find?
        (fun c => c.name == x)).map (fun c => c.id)
      = (columns.find? (fun c => c.2.1 == x)).map (fun c => c.1) := by
  rw [List.find?_map, Option.map_map]
  rfl

/-! ### Per-call cores for claim C6 -/

lemma existing_core
    {schema : DatabaseSchema} {td ntd : TableDefinition} {pr : Option TableDefinition}
    {s1 : DatabaseSchema} {cols : List (Nat × String × InfluxColumnType)}
    (htd : tableById schema td.table_id = some td)
    (hstaged : ∀ c ∈ cols, td.column_name_to_id c.2.1 = none)
    (hadd : td.add_columns cols = .ok ntd)
    (hins : schema.insert_table td.table_id ntd = .ok (pr, s1)) :
    (∀ tid x c, resolveCol schema tid x = some c → resolveCol s1 tid x = some c) ∧
    (∀ tid x,
      opsFieldIds [CatalogOp.addFields ⟨schema.name, schema.id, td.table_id, td.table_name,
        cols.map (fun c => FieldDefinition.new c.1 c.2.1 c.2.2)⟩] tid x
        = match resolveCol schema tid x, resolveCol s1 tid x with
          | none, some c => [c]
          | _, _ => []) := by
  obtain ⟨hsid, hsname, hcases⟩ := insert_table_ok_cases hins
  rcases hcases with ⟨hprs, hfindsome, htables⟩ | ⟨hprn, hfindnone, htables⟩
  case intro.intro.inr.intro.intro =>
    unfold tableById at htd
    rw [hfindnone] at htd
    simp at htd
  obtain ⟨hntd, hcolsnd⟩ := add_columns_ok_spec hadd
  have htid_self : tableById s1 td.table_id = some ntd := by
    unfold tableById
    rw [htables, find?_key_map_replace_self _ _ _ hfindsome]
    rfl
  have htid_other : ∀ tid, tid ≠ td.table_id → tableById s1 tid = tableById schema tid := by
    intro tid hne
    unfold tableById
    rw [htables, find?_key_map_replace_ne _ _ _ _ hne]
  have hlook : ∀ x, td.column_name_to_id x
      = (td.columns.find? (fun cc => cc.name == x)).map (fun cc => cc.id) := fun x => rfl
  have hstagedNone : ∀ x cd, td.columns.find? (fun cc => cc.name == x) = some cd →
      cols.find? (fun c => c.2.1 == x) = none := by
    intro x cd hfo
    rw [List.find?_eq_none]
    intro b hb
    simp only [beq_iff_eq]
    intro hbx
    have hn := hstaged b hb
    rw [hbx, hlook, hfo] at hn
    simp at hn
  have hres1 : ∀ x, resolveCol schema td.table_id x = td.column_name_to_id x := by
    intro x
    unfold resolveCol
    rw [htd]
    rfl
  have hres2 : ∀ x, resolveCol s1 td.table_id x
      = ((td.columns.find? (fun cc => cc.name == x)).or
          ((cols.map (fun c => (⟨c.1, c.2.1, c.2.2⟩ : ColumnDefinition))).find?
            (fun cc => cc.name == x))).map (fun cc => cc.id) := by
    intro x
    unfold resolveCol
    rw [htid_self]
    show ntd.column_name_to_id x = _
    rw [hntd]
    show ((td.columns
        ++ cols.map (fun c => (⟨c.1, c.2.1, c.2.2⟩ : ColumnDefinition))).find?
          (fun cc => cc.name == x)).map (fun cc => cc.id) = _
    rw [List.find?_append]
  constructor
  · intro tid x c hc
    by_cases htideq : tid = td.table_id
    · subst htideq
      rw [hres2]
      rw [hres1, hlook] at hc
      rcases hfo : td.columns.find? (fun cc => cc.name == x) with _ | cd
      · rw [hfo] at hc; simp at hc
      · rw [hfo] at hc
        rw [hfo]
        simpa using hc
    · unfold resolveCol
      rw [htid_other tid htideq]
      exact hc
  · intro tid x
    by_cases htideq : tid = td.table_id
    · subst htideq
      simp only [opsFieldIds, List.map_cons, List.map_nil, List.flatten, opFieldIds,
        beq_self_eq_true, if_true, List.append_nil]
      rw [fdefs_filter_ids, staged_filter_eq_find cols x hcolsnd]
      rw [hres1, hlook, hres2]
      rcases hfo : td.columns.find? (fun cc => cc.name == x) with _ | cd
      · rw [hfo]
        simp only [Option.none_or, Option.map_none']
        rw [colDefs_find?_ids]
        rcases hfs : cols.find? (fun c => c.2.1 == x) with _ | c0
        · rw [hfs]; simp
        · rw [hfs]; simp
      · rw [hfo, hstagedNone x cd hfo]
        simp
    · simp only [opsFieldIds, List.map_cons, List.map_nil, List.flatten, opFieldIds,
        List.append_nil]
      rw [if_neg (by simp [Ne.symm htideq])]
      unfold resolveCol
      rw [htid_other tid htideq]
      cases tableById schema tid with
      | none => simp
      | some td2 =>
        show ([] : List Nat) = match td2.column_name_to_id x, td2.column_name_to_id x with
          | none, some c => [c] | _, _ => []
        cases td2.column_name_to_id x <;> rfl

lemma new_core
    {schema : DatabaseSchema} {T : Nat} {s1 : DatabaseSchema}
    {tname : String} {cols : List (Nat × String × InfluxColumnType)} {key : List Nat}
    (hnameNd : (cols.map (fun c => c.2.1)).Nodup)
    (hins : schema.insert_table T
      (TableDefinition.mk T tname (cols.map (fun c => ⟨c.1, c.2.1, c.2.2⟩)) key)
      = .ok (none, s1)) :
    (∀ tid x c, resolveCol schema tid x = some c → resolveCol s1 tid x = some c) ∧
    (∀ tid x,
      opsFieldIds [CatalogOp.createTable ⟨T, schema.id, schema.name, tname,
        cols.map (fun c => FieldDefinition.new c.1 c.2.1 c.2.2), key⟩] tid x
        = match resolveCol schema tid x, resolveCol s1 tid x with
          | none, some c => [c]
          | _, _ => []) := by
  obtain ⟨hsid, hsname, hcases⟩ := insert_table_ok_cases hins
  rcases hcases with ⟨hprs, hfindsome, htables⟩ | ⟨hprn, hfindnone, htables⟩
  case intro.intro.inl.intro.intro => simp at hprs
  have hT_none : tableById schema T = none := by
    unfold tableById
    rw [hfindnone]
    rfl
  have hT_self : tableById s1 T
      = some (TableDefinition.mk T tname (cols.map (fun c => ⟨c.1, c.2.1, c.2.2⟩)) key) := by
    unfold tableById
    rw [htables, List.find?_append, hfindnone]
    simp [List.find?]
  have hT_other : ∀ tid, tid ≠ T → tableById s1 tid = tableById schema tid := by
    intro tid hne
    unfold tableById
    rw [htables, List.find?_append]
    have hb : (T == tid) = false := by simp [Ne.symm hne]
    have : List.find? (fun p => p.1 == tid) [(T,
        TableDefinition.mk T tname (cols.map (fun c => ⟨c.1, c.2.1, c.2.2⟩)) key)] = none := by
      simp [List.find?, hb]
    rw [this]
    cases schema.tables.find? (fun p => p.1 == tid) <;> rfl
  constructor
  · intro tid x c hc
    by_cases htideq : tid = T
    · subst htideq
      unfold resolveCol at hc
      rw [hT_none] at hc
      simp at hc
    · unfold resolveCol
      rw [hT_other tid htideq]
      exact hc
  · intro tid x
    by_cases htideq : tid = T
    · subst htideq
      simp only [opsFieldIds, List.map_cons, List.map_nil, List.flatten, opFieldIds,
        beq_self_eq_true, if_true, List.append_nil]
      rw [fdefs_filter_ids, staged_filter_eq_find cols x hnameNd]
      unfold resolveCol
      rw [hT_none, hT_self]
      show _ = match (none : Option Nat),
        ((cols.map (fun c => (⟨c.1, c.2.1, c.2.2⟩ : ColumnDefinition))).find?
          (fun cc => cc.name == x)).map (fun cc => cc.id) with
        | none, some c => [c] | _, _ => []
      rw [colDefs_find?_ids]
      rcases hfs : cols.find? (fun c => c.2.1 == x) with _ | c0
      · rw [hfs]; simp
      · rw [hfs]; simp
    · simp only [opsFieldIds, List.map_cons, List.map_nil, List.flatten, opFieldIds,
        List.append_nil]
      rw [if_neg (by simp [Ne.symm htideq])]
      unfold resolveCol
      rw [hT_other tid htideq]
      cases tableById schema tid with
      | none => simp
      | some td2 =>
        show ([] : List Nat) = match td2.column_name_to_id x, td2.column_name_to_id x with
          | none, some c => [c] | _, _ => []
        cases td2.column_name_to_id x <;> rfl

lemma schemaInv_replace {schema : DatabaseSchema} {st1 : MintState} {tid0 : Nat}
    {ntd : TableDefinition} {s1 : DatabaseSchema}
    (hfresh : ∀ p ∈ schema.tables, p.1 < st1.nextTable)
    (hcons : ∀ p ∈ schema.tables, p.2.table_id = p.1)
    (hnd : (schema.tables.map (fun p => p.1)).Nodup)
    (hn : ntd.table_id = tid0)
    (htables : s1.tables
      = schema.tables.map (fun q => if q.1 == tid0 then (tid0, ntd) else q)) :
    SchemaInv s1 st1 := by
  refine ⟨?_, ?_, ?_⟩
  · intro pp hpp
    rw [htables] at hpp
    obtain ⟨qq, hqq, hf⟩ := List.mem_map.mp hpp
    cases hb : qq.1 == tid0 with
    | true =>
      rw [if_pos hb] at hf
      have hq1 : qq.1 = tid0 := by simpa using hb
      rw [← hf]
      show tid0 < st1.nextTable
      rw [← hq1]
      exact hfresh qq hqq
    | false =>
      rw [if_neg (by simp [hb])] at hf
      rw [← hf]
      exact hfresh qq hqq
  · intro pp hpp
    rw [htables] at hpp
    obtain ⟨qq, hqq, hf⟩ := List.mem_map.mp hpp
    cases hb : qq.1 == tid0 with
    | true =>
      rw [if_pos hb] at hf
      rw [← hf]
      exact hn
    | false =>
      rw [if_neg (by simp [hb])] at hf
      rw [← hf]
      exact hcons qq hqq
  · rw [htables, keys_map_replace]
    exact hnd

lemma schemaInv_append {schema : DatabaseSchema} {st1 : MintState} {T : Nat}
    {table : TableDefinition} {s1 : DatabaseSchema}
    (hfreshT : ∀ p ∈ schema.tables, p.1 < T)
    (hT : T < st1.nextTable)
    (hcons : ∀ p ∈ schema.tables, p.2.table_id = p.1)
    (hnd : (schema.tables.map (fun p => p.1)).Nodup)
    (htid : table.table_id = T)
    (htables : s1.tables = schema.tables ++ [(T, table)]) :
    SchemaInv s1 st1 := by
  refine ⟨?_, ?_, ?_⟩
  · intro pp hpp
    rw [htables] at hpp
    rcases List.mem_append.mp hpp with h1 | h1
    · exact lt_trans (hfreshT pp h1) hT
    · simp at h1
      subst h1
      exact hT
  · intro pp hpp
    rw [htables] at hpp
    rcases List.mem_append.mp hpp with h1 | h1
    · exact hcons pp h1
    · simp at h1
      subst h1
      exact htid
  · rw [htables]
    simp only [List.map_append, List.map_cons, List.map_nil]
    rw [List.nodup_append]
    refine ⟨hnd, by simp, ?_⟩
    intro a ha hb
    simp only [List.mem_singleton] at hb
    subst hb
    obtain ⟨qq, hqq, hk⟩ := List.mem_map.mp ha
    have := hfreshT qq hqq
    omega

lemma validate_err_schemaInv {schema : DatabaseSchema} {st : MintState} {k : Nat}
    {l : ParsedLine} {it : Int} {p : Precision} {e : WriteLineError}
    {s1 : DatabaseSchema} {st1 : MintState}
    (hinv : SchemaInv schema st)
    (h : validate_and_qualify_line schema st k l it p = (.error e, s1, st1)) :
    SchemaInv s1 st1 := by
  obtain ⟨hfresh, hcons, hnd⟩ := hinv
  have hs := validate_err_schema_unchanged hfresh h
  subst hs
  have hmono := validate_nextTable_mono h
  exact ⟨fun pp hpp => lt_of_lt_of_le (hfresh pp hpp) hmono, hcons, hnd⟩

lemma validate_ok_c6 {schema : DatabaseSchema} {st : MintState} {k : Nat}
    {l : ParsedLine} {it : Int} {p : Precision} {q : QualifiedLine}
    {op : Option CatalogOp} {s1 : DatabaseSchema} {st1 : MintState}
    (hinv : SchemaInv schema st)
    (hwf : wellformedLine l)
    (h : validate_and_qualify_line schema st k l it p = (.ok (q, op), s1, st1)) :
    SchemaInv s1 st1 ∧
    (∀ tid x c, resolveCol schema tid x = some c → resolveCol s1 tid x = some c) ∧
    (∀ tid x, opsFieldIds op.toList tid x
       = match resolveCol schema tid x, resolveCol s1 tid x with
         | none, some c => [c]
         | _, _ => []) := by
  have hmono := validate_nextTable_mono h
  obtain ⟨hfresh, hcons, hnd⟩ := hinv
  simp only [validate_and_qualify_line] at h
  split at h
  next td heq =>
    have htd := tableById_of_table_definition hcons hnd heq
    split at h
    next e hfq => simp at h
    next vF vC fc hfq =>
      rcases htc : td.column_name_to_id timeColumnName with _ | cid
      all_goals simp only [htc] at h
      all_goals split at h
      case _ hemp =>
        exfalso
        simp at hemp
      case _ hemp =>
        split at h
        next e hadd => simp at h
        next ntd hadd =>
          split at h
          next e hins => simp at h
          next pr s1x hins =>
            simp only [Prod.mk.injEq, Except.ok.injEq] at h
            obtain ⟨⟨hq, hop⟩, hs, hst⟩ := h
            subst hop
            subst hs
            have hstaged : ∀ c ∈ (qualifyTags td st (l.series.tag_set.getD [])).2.1 ++ vC
                ++ [((qualifyFieldsExisting td
                      (qualifyTags td st (l.series.tag_set.getD [])).2.2.1
                      l.field_set).2.nextCol, timeColumnName, InfluxColumnType.timestamp)],
                td.column_name_to_id c.2.1 = none := by
              intro c hc
              rcases List.mem_append.mp hc with h1 | h1
              · rcases List.mem_append.mp h1 with h2 | h2
                · exact qualifyTags_staged_lookup td _ st c h2
                · exact qualifyFieldsExisting_staged_lookup td l.field_set _ _ _ _ hfq c h2
              · simp only [List.mem_singleton] at h1
                subst h1
                exact htc
            have hcore := existing_core htd hstaged hadd hins
            refine ⟨?_, hcore.1, hcore.2⟩
            obtain ⟨hsid, hsname, hcases⟩ := insert_table_ok_cases hins
            rcases hcases with ⟨hps, hfs2, htables⟩ | ⟨hpn, hfn, htables⟩
            · exact schemaInv_replace
                (fun pp hpp => lt_of_lt_of_le (hfresh pp hpp) hmono) hcons hnd
                (by rw [(add_columns_ok_spec hadd).1]) htables
            · exfalso
              unfold tableById at htd
              rw [hfn] at htd
              simp at htd
      case _ hemp =>
        simp only [Prod.mk.injEq, Except.ok.injEq] at h
        obtain ⟨⟨hq, hop⟩, hs, hst⟩ := h
        subst hop
        subst hs
        refine ⟨⟨fun pp hpp => lt_of_lt_of_le (hfresh pp hpp) hmono, hcons, hnd⟩,
          fun tid x c hc => hc, ?_⟩
        intro tid x
        show ([] : List Nat) = _
        cases resolveCol schema tid x <;> rfl
      case _ hemp =>
        split at h
        next e hadd => simp at h
        next ntd hadd =>
          split at h
          next e hins => simp at h
          next pr s1x hins =>
            simp only [Prod.mk.injEq, Except.ok.injEq] at h
            obtain ⟨⟨hq, hop⟩, hs, hst⟩ := h
            subst hop
            subst hs
            have hstaged : ∀ c ∈ (qualifyTags td st (l.series.tag_set.getD [])).2.1 ++ vC
                ++ ([] : List (Nat × String × InfluxColumnType)),
                td.column_name_to_id c.2.1 = none := by
              intro c hc
              rcases List.mem_append.mp hc with h1 | h1
              · rcases List.mem_append.mp h1 with h2 | h2
                · exact qualifyTags_staged_lookup td _ st c h2
                · exact qualifyFieldsExisting_staged_lookup td l.field_set _ _ _ _ hfq c h2
              · simp at h1
            have hcore := existing_core htd hstaged hadd hins
            refine ⟨?_, hcore.1, hcore.2⟩
            obtain ⟨hsid, hsname, hcases⟩ := insert_table_ok_cases hins
            rcases hcases with ⟨hps, hfs2, htables⟩ | ⟨hpn, hfn, htables⟩
            · exact schemaInv_replace
                (fun pp hpp => lt_of_lt_of_le (hfresh pp hpp) hmono) hcons hnd
                (by rw [(add_columns_ok_spec hadd).1]) htables
            · exfalso
              unfold tableById at htd
              rw [hfn] at htd
              simp at htd
  next heq =>
    split at h
    next e hins => simp at h
    next prv s1x hins => simp at h
    next s1x hins =>
      simp only [Prod.mk.injEq, Except.ok.injEq] at h
      obtain ⟨⟨hq, hop⟩, hs, hst⟩ := h
      subst hop
      subst hs
      have hnodup : (((qualifyTagsNew ⟨st.nextCol, st.nextTable + 1⟩
          (l.series.tag_set.getD [])).2.1
          ++ (qualifyFieldsNew (qualifyTagsNew ⟨st.nextCol, st.nextTable + 1⟩
              (l.series.tag_set.getD [])).2.2.2.1 l.field_set).2.1
          ++ [((qualifyFieldsNew (qualifyTagsNew ⟨st.nextCol, st.nextTable + 1⟩
              (l.series.tag_set.getD [])).2.2.2.1 l.field_set).2.2.1.nextCol,
            timeColumnName, InfluxColumnType.timestamp)]).map
            (fun c => c.2.1)).Nodup := by
        simp only [List.map_append, qualifyTagsNew_names, qualifyFieldsNew_names,
          List.map_cons, List.map_nil]
        rw [List.nodup_append]
        refine ⟨hwf.1, by simp, ?_⟩
        intro a ha hb
        simp only [List.mem_singleton] at hb
        subst hb
        exact hwf.2 ha
      have hcore := new_core hnodup hins
      refine ⟨?_, hcore.1, hcore.2⟩
      obtain ⟨hsid, hsname, hcases⟩ := insert_table_ok_cases hins
      rcases hcases with ⟨hps, hfs2, htables⟩ | ⟨hpn, hfn, htables⟩
      · simp at hps
      · refine schemaInv_append hfresh ?_ hcons hnd rfl htables
        subst hst
        simp only [qualifyFieldsNew_mint, qualifyTagsNew_mint]
        omega

lemma opsFieldIds_append (A B : List CatalogOp) (tid : Nat) (x : String) :
    opsFieldIds (A ++ B) tid x = opsFieldIds A tid x ++ opsFieldIds B tid x := by
  simp [opsFieldIds]

lemma processLines_c6 {ap : Bool} {it : Int} {p : Precision} {acc2 : LoopAcc}
    (input : LpInput) (acc : LoopAcc) (k : Nat)
    (hinv : SchemaInv acc.schema acc.mint)
    (hwf : ∀ pr ∈ input, ∀ l, pr.2 = Except.ok l → wellformedLine l)
    (h : processLines ap it p acc k input = .ok acc2) :
    SchemaInv acc2.schema acc2.mint ∧
    (∀ tid x c, resolveCol acc.schema tid x = some c →
      resolveCol acc2.schema tid x = some c) ∧
    (∀ tid x, opsFieldIds acc2.ops tid x
       = opsFieldIds acc.ops tid x ++
         match resolveCol acc.schema tid x, resolveCol acc2.schema tid x with
         | none, some c => [c]
         | _, _ => []) := by
  induction input generalizing acc k with
  | nil =>
    simp only [processLines, Except.ok.injEq] at h
    subst h
    refine ⟨hinv, fun tid x c hc => hc, fun tid x => ?_⟩
    cases resolveCol acc.schema tid x <;> simp
  | cons hd tl ih =>
    obtain ⟨raw, parsed⟩ := hd
    have hwf2 : ∀ pr ∈ tl, ∀ l, pr.2 = Except.ok l → wellformedLine l :=
      fun pr hpr l he => hwf pr (List.mem_cons_of_mem _ hpr) l he
    cases parsed with
    | error msg =>
      simp only [processLines] at h
      split at h
      · exact ih { acc with errors := acc.errors ++ [⟨raw, k + 1, msg⟩] }
          (k + 1) hinv hwf2 h
      · simp at h
    | ok l =>
      simp only [processLines] at h
      rcases hv : validate_and_qualify_line acc.schema acc.mint k l it p
        with ⟨e | ⟨ql, op⟩, s1, st1⟩
      · simp only [hv] at h
        split at h
        · have hs := validate_err_schema_unchanged hinv.1 hv
          subst hs
          have hinv1 : SchemaInv acc.schema st1 := validate_err_schemaInv hinv hv
          exact ih { acc with schema := acc.schema, mint := st1, errors := acc.errors ++ [e] }
            (k + 1) hinv1 hwf2 h
        · simp at h
      · simp only [hv] at h
        have hwl : wellformedLine l := hwf (raw, .ok l) (by simp) l rfl
        obtain ⟨hinv1, hpres1, hdelta1⟩ := validate_ok_c6 hinv hwl hv
        obtain ⟨ha, hb, hc2⟩ := ih { acc with schema := s1, mint := st1, bytes := acc.bytes + raw.utf8ByteSize, ops := acc.ops ++ op.toList, lines := acc.lines ++ [ql] } (k + 1) hinv1 hwf2 h
        refine ⟨ha, fun tid x c hc => hb tid x c (hpres1 tid x c hc), fun tid x => ?_⟩
        rw [hc2 tid x]
        show opsFieldIds (acc.ops ++ op.toList) tid x ++ _ = _
        rw [opsFieldIds_append, hdelta1 tid x, List.append_assoc]
        congr 1
        rcases h0 : resolveCol acc.schema tid x with _ | c0
        · rcases h1 : resolveCol s1 tid x with _ | c1
          · cases h2 : resolveCol acc2.schema tid x <;> simp [h1]
          · have h2 := hb tid x c1 h1
            simp [h1, h2]
        · have h1 := hpres1 tid x c0 h0
          have h2 := hb tid x c0 h1
          simp [h1, h2]

lemma processLines_append (ap : Bool) (it : Int) (p : Precision)
    (l1 l2 : LpInput) (acc : LoopAcc) (k : Nat) :
    processLines ap it p acc k (l1 ++ l2)
      = match processLines ap it p acc k l1 with
        | .error e => .error e
        | .ok a1 => processLines ap it p a1 (k + l1.length) l2 := by
  induction l1 generalizing acc k with
  | nil => simp [processLines]
  | cons hd tl ih =>
    obtain ⟨raw, parsed⟩ := hd
    have hlen : k + ((raw, parsed) :: tl).length = k + 1 + tl.length := by
      simp
      omega
    cases parsed with
    | error msg =>
      simp only [List.cons_append, processLines]
      by_cases hap : ap = true
      · simp only [if_pos hap, List.append_eq, ih, hlen]
      · simp only [if_neg hap]
    | ok l =>
      simp only [List.cons_append, processLines]
      rcases hv : validate_and_qualify_line acc.schema acc.mint k l it p
        with ⟨e | ⟨ql, op⟩, s1, st1⟩
      · by_cases hap : ap = true
        · simp only [if_pos hap, List.append_eq, ih, hlen]
        · simp only [if_neg hap]
      · simp only [List.append_eq, ih, hlen]

lemma column_id_and_definition_of_name {td : TableDefinition} {x : String} {c : Nat}
    (hc : td.column_name_to_id x = some c) :
    ∃ cd, td.column_id_and_definition x = some (c, cd) := by
  unfold TableDefinition.column_name_to_id at hc
  unfold TableDefinition.column_id_and_definition
  cases hfind : td.columns.find? (fun col => col.name == x) with
  | none => rw [hfind] at hc; simp at hc
  | some col =>
    rw [hfind] at hc
    simp only [Option.map_some'] at hc ⊢
    injection hc with hc
    exact ⟨col, by rw [hc]⟩

lemma qualifyTags_found_mem (td : TableDefinition) (st : MintState)
    (ts : List (String × String)) (x v : String) (c : Nat)
    (hmem : (x, v) ∈ ts) (hc : td.column_name_to_id x = some c) :
    Field.mk c (.tag v) ∈ (qualifyTags td st ts).1 := by
  induction ts generalizing st with
  | nil => simp at hmem
  | cons hd rest ih =>
    obtain ⟨k, w⟩ := hd
    rcases List.mem_cons.mp hmem with he | hm
    · rw [Prod.mk.injEq] at he
      obtain ⟨rfl, rfl⟩ := he
      simp only [qualifyTags, hc]
      exact List.mem_cons_self _ _
    · simp only [qualifyTags]
      cases hk : td.column_name_to_id k
      all_goals simp only [hk]
      · exact List.mem_cons_of_mem _ (ih _ hm)
      · exact List.mem_cons_of_mem _ (ih _ hm)

lemma qualifyFieldsExisting_found_mem (td : TableDefinition)
    (fs : List (String × FieldValue)) (x : String) (fv : FieldValue) (c : Nat)
    {st st1 : MintState} {fl : List Field}
    {cols : List (Nat × String × InfluxColumnType)} {n : Nat}
    (hmem : (x, fv) ∈ fs) (hc : td.column_name_to_id x = some c)
    (hok : qualifyFieldsExisting td st fs = (.ok (fl, cols, n), st1)) :
    Field.mk c (FieldData.ofValue fv) ∈ fl := by
  induction fs generalizing st st1 fl cols n with
  | nil => simp at hmem
  | cons hd rest ih =>
    obtain ⟨k, w⟩ := hd
    simp only [qualifyFieldsExisting] at hok
    rcases List.mem_cons.mp hmem with he | hm
    · rw [Prod.mk.injEq] at he
      obtain ⟨rfl, rfl⟩ := he
      obtain ⟨cd, hcd⟩ := column_id_and_definition_of_name hc
      simp only [hcd] at hok
      split at hok
      · simp at hok
      · rcases hrec : qualifyFieldsExisting td st rest with ⟨er | ⟨fs2, cols2, n2⟩, st2⟩
        all_goals simp only [hrec] at hok
        · simp at hok
        · simp only [Prod.mk.injEq, Except.ok.injEq] at hok
          obtain ⟨⟨hfl, hcols, hn⟩, hst⟩ := hok
          subst hfl
          exact List.mem_cons_self _ _
    · cases hcd : td.column_id_and_definition k with
      | none =>
        simp only [hcd] at hok
        rcases hrec : qualifyFieldsExisting td ⟨st.nextCol + 1, st.nextTable⟩ rest
          with ⟨er | ⟨fs2, cols2, n2⟩, st2⟩
        all_goals simp only [hrec] at hok
        · simp at hok
        · simp only [Prod.mk.injEq, Except.ok.injEq] at hok
          obtain ⟨⟨hfl, hcols, hn⟩, hst⟩ := hok
          subst hfl
          exact List.mem_cons_of_mem _ (ih hm hrec)
      | some pr =>
        obtain ⟨cid, cdef⟩ := pr
        simp only [hcd] at hok
        split at hok
        · simp at hok
        · rcases hrec : qualifyFieldsExisting td st rest with ⟨er | ⟨fs2, cols2, n2⟩, st2⟩
          all_goals simp only [hrec] at hok
          · simp at hok
          · simp only [Prod.mk.injEq, Except.ok.injEq] at hok
            obtain ⟨⟨hfl, hcols, hn⟩, hst⟩ := hok
            subst hfl
            exact List.mem_cons_of_mem _ (ih hm hrec)

lemma qualifyFieldsExisting_found_mem1 (td : TableDefinition)
    (fs : List (String × FieldValue)) (x : String) (fv : FieldValue) (c : Nat)
    {st : MintState} {fl : List Field}
    {cols : List (Nat × String × InfluxColumnType)} {n : Nat}
    (hmem : (x, fv) ∈ fs) (hc : td.column_name_to_id x = some c)
    (hok : (qualifyFieldsExisting td st fs).1 = .ok (fl, cols, n)) :
    Field.mk c (FieldData.ofValue fv) ∈ fl :=
  qualifyFieldsExisting_found_mem td fs x fv c hmem hc (Prod.ext hok rfl)

lemma validate_ok_existing_uses_resolved {schema : DatabaseSchema} {st : MintState}
    {k : Nat} {l : ParsedLine} {it : Int} {p : Precision} {q : QualifiedLine}
    {op : Option CatalogOp} {s1 : DatabaseSchema} {st1 : MintState}
    {td : TableDefinition} {x : String} {c : Nat}
    (heq : schema.table_definition l.series.measurement = some td)
    (hc : td.column_name_to_id x = some c)
    (h : validate_and_qualify_line schema st k l it p = (.ok (q, op), s1, st1)) :
    (∀ v, (x, v) ∈ l.series.tag_set.getD [] → Field.mk c (.tag v) ∈ q.row.fields) ∧
    (∀ fv, (x, fv) ∈ l.field_set → Field.mk c (FieldData.ofValue fv) ∈ q.row.fields) := by
  simp only [validate_and_qualify_line, heq] at h
  repeat' split at h
  any_goals simp at h
  all_goals obtain ⟨⟨hq, hop⟩, hs, hst⟩ := h
  all_goals subst hq
  all_goals refine ⟨fun v hv => ?_, fun fv hfv => ?_⟩
  all_goals first
    | exact List.mem_append.mpr (Or.inl (qualifyTags_found_mem td _ _ x v c hv hc))
    | exact List.mem_append.mpr (Or.inr (List.mem_append.mpr (Or.inl
        (qualifyFieldsExisting_found_mem1 td _ x fv c hfv hc (by assumption)))))

/-- C6: within one `parse_lines_and_update_schema` call, columns staged by
earlier lines are visible to later lines through the shadow schema.  For a
successful batch over `pre ++ (raw, l) :: post`: the run over the earlier
lines `pre` succeeds, and (i) its accumulated catalog ops hold exactly one
field definition for each column the earlier lines introduced — the very id
the shadow schema now resolves — and none for pre-existing columns; (ii)
the same holds of the whole batch's ops, so a column staged once is never
re-staged; (iii) an id resolvable mid-batch resolves to the same id at the
end; and (iv) the later line `l`, validated against the shadow schema, when
its table `td` already has a column `x` (for instance one staged by an
earlier line), references exactly that `ColumnId` in its row's tag and
field entries and its catalog op stages no new field definition for `x`. -/
theorem c6_staged_column_shared_id_single_def
    (s : WithCatalog) (mint : MintState) (pre post : LpInput)
    (raw : String) (l : ParsedLine) (ap : Bool) (it : Int) (p : Precision)
    (lp : LinesParsed) (cat1 : Catalog) (mint1 : MintState)
    (hinv : SchemaInv s.db_schema mint)
    (hwf : ∀ pr ∈ pre ++ (raw, Except.ok l) :: post, ∀ l0,
      pr.2 = Except.ok l0 → wellformedLine l0)
    (h : parse_lines_and_update_schema s mint (pre ++ (raw, Except.ok l) :: post) ap it p
          = (.ok lp, cat1, mint1)) :
    ∃ accMid accF : LoopAcc,
      processLines ap it p ⟨s.db_schema, mint, [], [], 0, []⟩ 0 pre = .ok accMid ∧
      processLines ap it p ⟨s.db_schema, mint, [], [], 0, []⟩ 0
        (pre ++ (raw, Except.ok l) :: post) = .ok accF ∧
      (∀ T x, opsFieldIds accMid.ops T x
         = match resolveCol s.db_schema T x, resolveCol accMid.schema T x with
           | none, some c => [c]
           | _, _ => []) ∧
      (∀ T x, opsFieldIds accF.ops T x
         = match resolveCol s.db_schema T x, resolveCol accF.schema T x with
           | none, some c => [c]
           | _, _ => []) ∧
      (∀ T x c, resolveCol accMid.schema T x = some c →
        resolveCol accF.schema T x = some c) ∧
      (∀ td x c q op s2 st2,
        accMid.schema.table_definition l.series.measurement = some td →
        td.column_name_to_id x = some c →
        validate_and_qualify_line accMid.schema accMid.mint pre.length l it p
          = (.ok (q, op), s2, st2) →
        (∀ v, (x, v) ∈ l.series.tag_set.getD [] → Field.mk c (.tag v) ∈ q.row.fields) ∧
        (∀ fv, (x, fv) ∈ l.field_set →
          Field.mk c (FieldData.ofValue fv) ∈ q.row.fields) ∧
        opsFieldIds op.toList td.table_id x = []) := by
  cases hok : processLines ap it p ⟨s.db_schema, mint, [], [], 0, []⟩ 0
      (pre ++ (raw, Except.ok l) :: post) with
  | error e =>
    simp only [parse_lines_and_update_schema, hok] at h
    simp at h
  | ok accF =>
    have happ := processLines_append ap it p pre ((raw, Except.ok l) :: post)
      ⟨s.db_schema, mint, [], [], 0, []⟩ 0
    rw [hok] at happ
    cases hmid : processLines ap it p ⟨s.db_schema, mint, [], [], 0, []⟩ 0 pre with
    | error e =>
      rw [hmid] at happ
      simp at happ
    | ok accMid =>
      rw [hmid] at happ
      have hwfpre : ∀ pr ∈ pre, ∀ l0, pr.2 = Except.ok l0 → wellformedLine l0 :=
        fun pr hpr => hwf pr (List.mem_append.mpr (Or.inl hpr))
      have hwfrest : ∀ pr ∈ (raw, Except.ok l) :: post, ∀ l0,
          pr.2 = Except.ok l0 → wellformedLine l0 :=
        fun pr hpr => hwf pr (List.mem_append.mpr (Or.inr hpr))
      obtain ⟨hinvMid, hpresMid, hopsMid⟩ :=
        processLines_c6 pre ⟨s.db_schema, mint, [], [], 0, []⟩ 0 hinv hwfpre hmid
      obtain ⟨hinvF, hpresF, hopsF⟩ :=
        processLines_c6 (pre ++ (raw, Except.ok l) :: post)
          ⟨s.db_schema, mint, [], [], 0, []⟩ 0 hinv hwf hok
      obtain ⟨hinvF2, hpresRest, hopsRest⟩ :=
        processLines_c6 ((raw, Except.ok l) :: post) accMid (0 + pre.length)
          hinvMid hwfrest happ.symm
      refine ⟨accMid, accF, rfl, rfl, ?_, ?_, hpresRest, ?_⟩
      · intro T x
        simpa [opsFieldIds] using hopsMid T x
      · intro T x
        simpa [opsFieldIds] using hopsF T x
      · intro td x c q op s2 st2 htd hcx hval
        have htb : tableById accMid.schema td.table_id = some td :=
          tableById_of_table_definition hinvMid.2.1 hinvMid.2.2 htd
        have hres : resolveCol accMid.schema td.table_id x = some c := by
          simp [resolveCol, htb, hcx]
        obtain ⟨hmem_tag, hmem_field⟩ := validate_ok_existing_uses_resolved htd hcx hval
        obtain ⟨_, _, hdelta⟩ :=
          validate_ok_c6 hinvMid (hwfrest (raw, .ok l) (by simp) l rfl) hval
        refine ⟨hmem_tag, hmem_field, ?_⟩
        rw [hdelta td.table_id x, hres]

/-- Witness for C6: two lines on a fresh database.  The first line
`m,t=a f=1i 5` creates table `m` staging columns `t`, `f`, `time`; the
second line `m,t=b f=2i 6` uses `t` and `f` against the shadow schema,
resolves them to the same ids `0` and `1`, and the batch carries a single
`CreateTable` op with exactly one field definition per column. -/
theorem c6_staged_column_shared_id_single_def_witness :
    ∃ accMid accF : LoopAcc,
      processLines true 0 .nanosecond ⟨⟨3, "db", []⟩, ⟨0, 0⟩, [], [], 0, []⟩ 0
        [("m,t=a f=1i 5", Except.ok ⟨⟨"m", some [("t", "a")]⟩, [("f", .i64 1)], some 5⟩)]
        = .ok accMid ∧
      processLines true 0 .nanosecond ⟨⟨3, "db", []⟩, ⟨0, 0⟩, [], [], 0, []⟩ 0
        ([("m,t=a f=1i 5", Except.ok ⟨⟨"m", some [("t", "a")]⟩, [("f", .i64 1)], some 5⟩)]
          ++ ("m,t=b f=2i 6",
              Except.ok ⟨⟨"m", some [("t", "b")]⟩, [("f", .i64 2)], some 6⟩) :: [])
        = .ok accF ∧
      (∀ T x, opsFieldIds accMid.ops T x
         = match resolveCol ⟨3, "db", []⟩ T x, resolveCol accMid.schema T x with
           | none, some c => [c]
           | _, _ => []) ∧
      (∀ T x, opsFieldIds accF.ops T x
         = match resolveCol ⟨3, "db", []⟩ T x, resolveCol accF.schema T x with
           | none, some c => [c]
           | _, _ => []) ∧
      (∀ T x c, resolveCol accMid.schema T x = some c →
        resolveCol accF.schema T x = some c) ∧
      (∀ td x c q op s2 st2,
        accMid.schema.table_definition "m" = some td →
        td.column_name_to_id x = some c →
        validate_and_qualify_line accMid.schema accMid.mint 1
          ⟨⟨"m", some [("t", "b")]⟩, [("f", .i64 2)], some 6⟩ 0 .nanosecond
          = (.ok (q, op), s2, st2) →
        (∀ v, (x, v) ∈ [("t", "b")] → Field.mk c (.tag v) ∈ q.row.fields) ∧
        (∀ fv, (x, fv) ∈ [("f", FieldValue.i64 2)] →
          Field.mk c (FieldData.ofValue fv) ∈ q.row.fields) ∧
        opsFieldIds op.toList td.table_id x = []) :=
  c6_staged_column_shared_id_single_def
    ⟨⟨7, []⟩, ⟨3, "db", []⟩, 55⟩ ⟨0, 0⟩
    [("m,t=a f=1i 5", Except.ok ⟨⟨"m", some [("t", "a")]⟩, [("f", .i64 1)], some 5⟩)]
    [] "m,t=b f=2i 6" ⟨⟨"m", some [("t", "b")]⟩, [("f", .i64 2)], some 6⟩
    true 0 .nanosecond
    ⟨⟨⟨8, [⟨3, 55, "db", [CatalogOp.createTable ⟨0, 3, "db", "m",
          [⟨0, "t", .tag⟩, ⟨1, "f", .field .integer⟩, ⟨2, "time", .timestamp⟩], [0]⟩]⟩]⟩,
        ⟨3, "db", []⟩, 55⟩,
      [⟨0, ⟨5, [⟨0, .tag "a"⟩, ⟨1, .integer 1⟩, ⟨2, .timestamp 5⟩]⟩, 1, 1⟩,
       ⟨0, ⟨6, [⟨0, .tag "b"⟩, ⟨1, .integer 2⟩, ⟨2, .timestamp 6⟩]⟩, 1, 1⟩],
      24,
      some ⟨⟨3, 55, "db", [CatalogOp.createTable ⟨0, 3, "db", "m",
          [⟨0, "t", .tag⟩, ⟨1, "f", .field .integer⟩, ⟨2, "time", .timestamp⟩], [0]⟩]⟩, 7⟩,
      []⟩
    ⟨8, [⟨3, 55, "db", [CatalogOp.createTable ⟨0, 3, "db", "m",
        [⟨0, "t", .tag⟩, ⟨1, "f", .field .integer⟩, ⟨2, "time", .timestamp⟩], [0]⟩]⟩]⟩
    ⟨3, 1⟩
    ⟨fun p hp => absurd hp (List.not_mem_nil p),
     fun p hp => absurd hp (List.not_mem_nil p), by simp⟩
    (by
      intro pr hpr l0 he
      simp only [List.cons_append, List.nil_append, List.mem_cons,
        List.not_mem_nil, or_false] at hpr
      rcases hpr with h1 | h1
      all_goals subst h1
      all_goals injection he with he
      all_goals subst he
      all_goals decide)
    rfl

end InfluxValidator
